import Mathlib

/-! Statement parser of `parse.go`.

A shallow embedding of `parseTransactions` (parse.go, lines 82-176): the
line-oriented state machine that rebuilds transaction records from the text
lines of a card statement.

Modelling choices.

* Go strings are modelled by `String`; the two regular expressions
  `pageBreakSentinel` and `percentFormat` are modelled by direct matchers on
  the list of characters of the line.
* The loop `for i, l := range lines` is a recursion over the lines that
  carries the index `i`; one iteration of its body is `step`.
* The Go `int` values `i` and `stateChangeNum` are natural numbers: both are
  bounded by the length of the slice, so no addition `stateChangeNum + k`
  with `k ≤ 5` can wrap around.
* The only possible runtime failure of the loop body is an index out of range
  in `txs[len(txs)-1]` when `txs` is empty; it is modelled by `none`.
  The `error` result of the Go function is always `nil` and is not modelled.
-/

namespace Applecard

/-- The record type `transaction` (parse.go, lines 27-37). The zero value
`transaction{}` has every field empty. -/
structure transaction where
  date : String := ""
  location : String := ""
  transactionAmt : String := ""
  cashBackPct : String := ""
  cashBackAmt : String := ""
  promoCashAmt : String := ""
  promoCashPct : String := ""
  cashAdjustmentAmt : String := ""
  cashAdjustmentPct : String := ""
  deriving DecidableEq, Repr

/-- The enumeration `state` (parse.go, lines 67-77); `end_` stands for the
Go constant `end`, a reserved word here. -/
inductive state where
  | preamble
  | txHeader
  | txList
  | cashAdj
  | promo
  | pageBreak
  | end_
  deriving DecidableEq, Repr

/-- The class `[0-9]` of both regular expressions: the ASCII digits only. -/
def isAsciiDigit (c : Char) : Bool := decide ('0' ≤ c) && decide (c ≤ '9')

/-- For `pageBreakSentinel.MatchString` with the pattern
`^Page [0-9]+ /[0-9]+$` (parse.go, line 79): the literal `Page `, one or more
digits, the literal ` /`, one or more digits, and the end of the text. -/
def pageBreakSentinel (l : String) : Bool :=
  match l.toList with
  | 'P' :: 'a' :: 'g' :: 'e' :: ' ' :: r =>
    !(r.takeWhile isAsciiDigit).isEmpty &&
      (match r.dropWhile isAsciiDigit with
       | ' ' :: '/' :: r2 => !r2.isEmpty && r2.all isAsciiDigit
       | _ => false)
  | _ => false

/-- The characters left after an optional leading minus sign, `[-]?`. -/
def dropSign : List Char → List Char
  | '-' :: r => r
  | cs => cs

/-- For `percentFormat.MatchString` with the pattern `^[-]?[0-9]+%$`
(parse.go, line 80): an optional minus sign, one or more digits, a percent
sign, and the end of the text. -/
def percentFormat (l : String) : Bool :=
  !((dropSign l.toList).takeWhile isAsciiDigit).isEmpty &&
    (dropSign l.toList).dropWhile isAsciiDigit == ['%']

/-- The local variables of `parseTransactions` that live across iterations
(parse.go, lines 83-86). -/
structure Config where
  txs : List transaction
  curState : state
  stateChangeNum : Nat
  tx : transaction
  deriving DecidableEq, Repr

/-- The values of the locals before the loop: `txs` is nil, `curState` is
`preamble`, `stateChangeNum` is 0 and `tx` is the zero transaction. -/
def init : Config :=
  { txs := [], curState := state.preamble, stateChangeNum := 0, tx := {} }

/-- The assignment `txs[len(txs)-1] = tx` (parse.go, lines 106 and 118);
`none` is the index-out-of-range failure on an empty `txs`. -/
def setLast (txs : List transaction) (t : transaction) : Option (List transaction) :=
  if txs.isEmpty then none else some (txs.dropLast ++ [t])

/-- The block of parse.go, lines 149-168: the draft is filled according to the
offset of the line from the anchor. The boolean is `true` when the block ends
the iteration with `continue` (line 161). -/
def fillDraft (c : Config) (i : Nat) (l : String) : Config × Bool :=
  if c.curState = state.txList ∧ i ≤ c.stateChangeNum + 5 then
    if i = c.stateChangeNum + 1 then
      ({ c with tx := { c.tx with date := l } }, false)
    else if i = c.stateChangeNum + 2 then
      ({ c with tx := { c.tx with location := l } }, false)
    else if i = c.stateChangeNum + 3 then
      if percentFormat l then
        ({ c with tx := { c.tx with cashBackPct := l } }, false)
      else
        ({ c with tx := { c.tx with transactionAmt := l },
                  stateChangeNum := i, curState := state.txList }, true)
    else if i = c.stateChangeNum + 4 then
      ({ c with tx := { c.tx with cashBackAmt := l } }, false)
    else if i = c.stateChangeNum + 5 then
      ({ c with tx := { c.tx with transactionAmt := l } }, false)
    else (c, false)
  else (c, false)

/-- The block of parse.go, lines 169-173: at offset 5 the draft is appended
to the output, cleared, and the anchor is reset. -/
def appendDraft (c : Config) (i : Nat) : Config :=
  if c.curState = state.txList ∧ i = c.stateChangeNum + 5 then
    { c with txs := c.txs ++ [c.tx], tx := {}, stateChangeNum := i }
  else c

/-- One iteration of the loop body of `parseTransactions` (parse.go, lines
88-173) on line `l` at index `i`. -/
def step (c : Config) (i : Nat) (l : String) : Option Config :=
  if (c.curState = state.preamble ∨ c.curState = state.pageBreak) ∧ l = "Transactions" then
    some { c with curState := state.txHeader, stateChangeNum := i }
  else if c.curState = state.txHeader ∧ i = c.stateChangeNum + 4 then
    some { c with curState := state.txList, stateChangeNum := i }
  else if c.curState = state.promo ∧ i ≤ c.stateChangeNum + 3 then
    if i = c.stateChangeNum + 1 then
      some { c with tx := { c.tx with promoCashPct := l } }
    else if i = c.stateChangeNum + 2 then
      some { c with tx := { c.tx with promoCashAmt := l } }
    else
      match setLast c.txs c.tx with
      | none => none
      | some txs' =>
        some { txs := txs', curState := state.txList, stateChangeNum := i, tx := {} }
  else if c.curState = state.cashAdj ∧ i ≤ c.stateChangeNum + 2 then
    if i = c.stateChangeNum + 1 then
      some { c with tx := { c.tx with cashAdjustmentPct := l } }
    else
      match setLast c.txs { c.tx with cashAdjustmentAmt := l } with
      | none => none
      | some txs' =>
        some { txs := txs', curState := state.txList, stateChangeNum := i, tx := {} }
  else if c.curState = state.txList ∧ i = c.stateChangeNum + 1
      ∧ l = "Total charges, credits and returns" then
    some { c with curState := state.end_, stateChangeNum := i }
  else if c.curState = state.txList ∧ i = c.stateChangeNum + 1
      ∧ pageBreakSentinel l = true then
    some { c with curState := state.pageBreak, stateChangeNum := i, tx := {} }
  else if c.curState = state.txList ∧ i = c.stateChangeNum + 1
      ∧ l = "Promo Daily Cash" then
    match c.txs.getLast? with
    | none => none
    | some t => some { c with curState := state.promo, stateChangeNum := i, tx := t }
  else if c.curState = state.txList ∧ i = c.stateChangeNum + 1
      ∧ l = "Daily Cash Adjustment" then
    some { c with curState := state.cashAdj, stateChangeNum := i }
  else
    match fillDraft c i l with
    | (c', true) => some c'
    | (c', false) => some (appendDraft c' i)

/-- The loop `for i, l := range lines` started at index `i` in configuration
`c`; `none` when an iteration fails. -/
def runFrom (i : Nat) (c : Config) : List String → Option Config
  | [] => some c
  | l :: ls =>
    match step c i l with
    | none => none
    | some c' => runFrom (i + 1) c' ls

/-- The function `parseTransactions` (parse.go, lines 82-176): the output
sequence `txs` after the loop, or `none` when the loop fails at run time. -/
def parseTransactions (lines : List String) : Option (List transaction) :=
  (runFrom 0 init lines).map Config.txs

/-- The prefix `P` is parsed without failure and leaves the machine at a
fresh `txList` entry: the state is `txList` and the anchor `stateChangeNum`
is the index of the last line of `P`. -/
def FreshTxList (P : List String) : Prop :=
  ∃ c, runFrom 0 init P = some c ∧ c.curState = state.txList ∧
    c.stateChangeNum + 1 = P.length

/-- The line is none of the four lines that leave `txList` at offset 1: the
terminal line, the two block markers and a page-break line. -/
def NotSentinel (d : String) : Prop :=
  d ≠ "Total charges, credits and returns" ∧ d ≠ "Promo Daily Cash" ∧
    d ≠ "Daily Cash Adjustment" ∧ pageBreakSentinel d = false

instance (d : String) : Decidable (NotSentinel d) := by
  unfold NotSentinel
  infer_instance

/-- The draft carries no promo field outside of state `promo`, and no
adjustment field outside of the states `promo` and `cashAdj`. -/
def Clean (c : Config) : Prop :=
  (c.curState ≠ state.promo →
    c.tx.promoCashAmt = "" ∧ c.tx.promoCashPct = "") ∧
  (c.curState ≠ state.promo → c.curState ≠ state.cashAdj →
    c.tx.cashAdjustmentAmt = "" ∧ c.tx.cashAdjustmentPct = "")

/-- The configuration `c` with its anchor moved `n` lines further. -/
def shift (n : Nat) (c : Config) : Config :=
  { c with stateChangeNum := c.stateChangeNum + n }

/-- The method `header` (parse.go, lines 39-51): the nine column names. -/
def transaction.header : List String :=
  ["date", "location", "amount", "cash_back_pct", "cash_back_amt", "promo_cash_amt",
   "promo_cash_pct", "cash_adj_amt", "cash_adj_pct"]

/-- The method `record` (parse.go, lines 53-65): the nine fields of a
transaction in column order. -/
def transaction.record (t : transaction) : List String :=
  [t.date, t.location, t.transactionAmt, t.cashBackPct, t.cashBackAmt, t.promoCashAmt,
   t.promoCashPct, t.cashAdjustmentAmt, t.cashAdjustmentPct]

/-- The result of `w.Write(row)` for the `csv.Writer` of `writeCsv`, `true`
for a nil error. The writer of line 180 has the default delimiter and writes
through a buffer into a `bytes.Buffer`, so `Write` returns no error. -/
def csvWriteOk (_row : List String) : Bool := true

/-- The rows handed to `w.Write` by the loop of `writeCsv` (parse.go, lines
182-186), for a writer whose `Write` succeeds on the rows accepted by `wr`:
the loop stops after the first row whose write fails. -/
def writeRecords (wr : List String → Bool) : List transaction → List (List String)
  | [] => []
  | t :: ts => if wr t.record then t.record :: writeRecords wr ts else [t.record]

/-- The rows handed to the CSV writer by `writeCsv` (parse.go, lines
178-189): the header row, whose write result is ignored (line 181), then the
rows of the loop. The CSV text is what `encoding/csv` makes of these rows. -/
def writeCsvRows (txs : List transaction) : List (List String) :=
  transaction.header :: writeRecords csvWriteOk txs

/-- The text of a percentage in the words of the claim: an optional single
minus sign, then one or more ASCII digits `0`-`9`, then a percent sign and
nothing else. -/
def IsPercentText (l : String) : Prop :=
  ∃ ds : List Char, ds ≠ [] ∧ (∀ ch ∈ ds, '0' ≤ ch ∧ ch ≤ '9') ∧
    (l.toList = ds ++ ['%'] ∨ l.toList = '-' :: (ds ++ ['%']))

/-- The output `b` extends the output `a`: it is at least as long, and every
record of `a` other than its last one is found at the same position in `b`. -/
def Extends (a b : List transaction) : Prop :=
  a.length ≤ b.length ∧ ∀ k, k + 1 < a.length → b[k]? = a[k]?

/-- The size invariant of the loop before line `i`: a non-empty output of `n`
records has cost at least `5 * n + 5` lines, an anchor of state `txList` is
at index `5 * n + 4` or later, and an anchor of state `txHeader` is at index
`5 * n` or later. -/
def Bound (c : Config) (i : Nat) : Prop :=
  (c.txs.length = 0 ∨ 5 * c.txs.length + 5 ≤ i) ∧
  (c.curState = state.txList → 5 * c.txs.length + 4 ≤ c.stateChangeNum) ∧
  (c.curState = state.txHeader → 5 * c.txs.length ≤ c.stateChangeNum)

/-- The configuration of the reference machine of the transition table: the
state, the offset of the next line from the line of the last state entry, the
draft and the output. -/
structure SpecConfig where
  st : state
  offset : Nat
  draft : transaction
  output : List transaction
  deriving DecidableEq, Repr

/-- A row of the transition table: the states it starts from, its trigger on
the offset and the line, its action on draft and output (`none` when it
accesses the last element of an empty output), whether it resets the anchor,
and the state it leads to (`none` for a row that stays). -/
structure Row where
  source : state → Bool
  trigger : Nat → String → Bool
  action : transaction → List transaction → String →
    Option (transaction × List transaction)
  reset : Bool
  target : Option state

/-- The transition table of the specification, its seventeen rows in the
order of the table. -/
def transitionTable : List Row :=
  [ { source := fun s => decide (s = state.preamble ∨ s = state.pageBreak),
      trigger := fun _ l => decide (l = "Transactions"),
      action := fun d o _ => some (d, o),
      reset := true, target := some state.txHeader },
    { source := fun s => decide (s = state.txHeader),
      trigger := fun k _ => decide (k = 4),
      action := fun d o _ => some (d, o),
      reset := true, target := some state.txList },
    { source := fun s => decide (s = state.txList),
      trigger := fun k l => decide (k = 1 ∧ l = "Total charges, credits and returns"),
      action := fun d o _ => some (d, o),
      reset := true, target := some state.end_ },
    { source := fun s => decide (s = state.txList),
      trigger := fun k l => decide (k = 1) && pageBreakSentinel l,
      action := fun _ o _ => some ({}, o),
      reset := true, target := some state.pageBreak },
    { source := fun s => decide (s = state.txList),
      trigger := fun k l => decide (k = 1 ∧ l = "Promo Daily Cash"),
      action := fun _ o _ => o.getLast?.map (fun t => (t, o)),
      reset := true, target := some state.promo },
    { source := fun s => decide (s = state.txList),
      trigger := fun k l => decide (k = 1 ∧ l = "Daily Cash Adjustment"),
      action := fun d o _ => some (d, o),
      reset := true, target := some state.cashAdj },
    { source := fun s => decide (s = state.txList),
      trigger := fun k _ => decide (k = 1),
      action := fun d o l => some ({ d with date := l }, o),
      reset := false, target := none },
    { source := fun s => decide (s = state.txList),
      trigger := fun k _ => decide (k = 2),
      action := fun d o l => some ({ d with location := l }, o),
      reset := false, target := none },
    { source := fun s => decide (s = state.txList),
      trigger := fun k l => decide (k = 3) && percentFormat l,
      action := fun d o l => some ({ d with cashBackPct := l }, o),
      reset := false, target := none },
    { source := fun s => decide (s = state.txList),
      trigger := fun k _ => decide (k = 3),
      action := fun d o l => some ({ d with transactionAmt := l }, o),
      reset := true, target := some state.txList },
    { source := fun s => decide (s = state.txList),
      trigger := fun k _ => decide (k = 4),
      action := fun d o l => some ({ d with cashBackAmt := l }, o),
      reset := false, target := none },
    { source := fun s => decide (s = state.txList),
      trigger := fun k _ => decide (k = 5),
      action := fun d o l => some ({}, o ++ [{ d with transactionAmt := l }]),
      reset := true, target := some state.txList },
    { source := fun s => decide (s = state.promo),
      trigger := fun k _ => decide (k = 1),
      action := fun d o l => some ({ d with promoCashPct := l }, o),
      reset := false, target := none },
    { source := fun s => decide (s = state.promo),
      trigger := fun k _ => decide (k = 2),
      action := fun d o l => some ({ d with promoCashAmt := l }, o),
      reset := false, target := none },
    { source := fun s => decide (s = state.promo),
      trigger := fun k _ => decide (k = 3),
      action := fun d o _ => (setLast o d).map (fun o1 => ({}, o1)),
      reset := true, target := some state.txList },
    { source := fun s => decide (s = state.cashAdj),
      trigger := fun k _ => decide (k = 1),
      action := fun d o l => some ({ d with cashAdjustmentPct := l }, o),
      reset := false, target := none },
    { source := fun s => decide (s = state.cashAdj),
      trigger := fun k _ => decide (k = 2),
      action := fun d o l =>
        (setLast o { d with cashAdjustmentAmt := l }).map (fun o1 => ({}, o1)),
      reset := true, target := some state.txList } ]

/-- One line of the reference machine: the first row of the table that starts
from the current state and whose trigger holds is applied; a line that
matches no row only moves the offset. -/
def specStep (s : SpecConfig) (l : String) : Option SpecConfig :=
  match transitionTable.find? (fun r => r.source s.st && r.trigger s.offset l) with
  | none => some { s with offset := s.offset + 1 }
  | some r =>
    match r.action s.draft s.output l with
    | none => none
    | some (d, o) =>
      some { st := r.target.getD s.st, offset := if r.reset then 1 else s.offset + 1,
             draft := d, output := o }

/-- The initial configuration of the reference machine: state `Preamble`, the
first line at offset 0 from the anchor 0, an empty draft and no output. -/
def specInit : SpecConfig :=
  { st := state.preamble, offset := 0, draft := {}, output := [] }

/-- The reference machine run as a left fold over the lines; `none` when a
row fails on a last-element access with empty output. -/
def specParse (lines : List String) : Option (List transaction) :=
  (lines.foldlM specStep specInit).map SpecConfig.output

/-- The configuration `c` of the loop before line `i` and the configuration
`s` of the reference machine agree: same state, draft and output, and the
offset of `s` is the distance of `i` from the anchor of `c`; the offset is at
least 1 once the state `preamble` has been left. -/
def Sim (c : Config) (i : Nat) (s : SpecConfig) : Prop :=
  c.curState = s.st ∧ c.tx = s.draft ∧ c.txs = s.output ∧
    i = c.stateChangeNum + s.offset ∧ (s.st = state.preamble ∨ 1 ≤ s.offset)

/-! ## General lemmas on the loop -/

theorem runFrom_append (i : Nat) (c : Config) (xs ys : List String) :
    runFrom i c (xs ++ ys) =
      (runFrom i c xs).bind (fun c' => runFrom (i + xs.length) c' ys) := by
  induction xs generalizing i c with
  | nil => simp [runFrom]
  | cons x xs ih =>
    simp only [List.cons_append, runFrom, List.length_cons]
    cases hs : step c i x with
    | none => simp
    | some c' =>
      have hlen : i + 1 + xs.length = i + (xs.length + 1) := by omega
      simpa [hlen] using ih (i + 1) c'

theorem parseTransactions_of_run {P : List String} {c : Config}
    (h : runFrom 0 init P = some c) : parseTransactions P = some c.txs := by
  simp [parseTransactions, h]

theorem run_after {P : List String} {c : Config} (h : runFrom 0 init P = some c)
    (ys : List String) :
    runFrom 0 init (P ++ ys) = runFrom P.length c ys := by
  simp [runFrom_append, h]

/-! ## Single steps in state `txList` -/

theorem step_date {c : Config} {i : Nat} {l : String}
    (hs : c.curState = state.txList) (hi : i = c.stateChangeNum + 1)
    (hl : NotSentinel l) :
    step c i l = some { c with tx := { c.tx with date := l } } := by
  obtain ⟨h1, h2, h3, h4⟩ := hl
  simp [step, fillDraft, appendDraft, hs, hi, h1, h2, h3, h4]

theorem step_location {c : Config} {i : Nat} {l : String}
    (hs : c.curState = state.txList) (hi : i = c.stateChangeNum + 2) :
    step c i l = some { c with tx := { c.tx with location := l } } := by
  simp [step, fillDraft, appendDraft, hs, hi]

theorem step_cashBackPct {c : Config} {i : Nat} {l : String}
    (hs : c.curState = state.txList) (hi : i = c.stateChangeNum + 3)
    (hl : percentFormat l = true) :
    step c i l = some { c with tx := { c.tx with cashBackPct := l } } := by
  simp [step, fillDraft, appendDraft, hs, hi, hl]

theorem step_amount3 {c : Config} {i : Nat} {l : String}
    (hs : c.curState = state.txList) (hi : i = c.stateChangeNum + 3)
    (hl : percentFormat l = false) :
    step c i l = some { c with tx := { c.tx with transactionAmt := l },
                               stateChangeNum := i } := by
  simp [step, fillDraft, hs, hi, hl]

theorem step_cashBackAmt {c : Config} {i : Nat} {l : String}
    (hs : c.curState = state.txList) (hi : i = c.stateChangeNum + 4) :
    step c i l = some { c with tx := { c.tx with cashBackAmt := l } } := by
  simp [step, fillDraft, appendDraft, hs, hi]

theorem step_append {c : Config} {i : Nat} {l : String}
    (hs : c.curState = state.txList) (hi : i = c.stateChangeNum + 5) :
    step c i l = some { c with txs := c.txs ++ [{ c.tx with transactionAmt := l }],
                               tx := {}, stateChangeNum := i } := by
  simp [step, fillDraft, appendDraft, hs, hi]

theorem pageBreak_ne_total {l : String} (h : pageBreakSentinel l = true) :
    l ≠ "Total charges, credits and returns" := by
  intro hl
  subst hl
  revert h
  decide

theorem step_total {c : Config} {i : Nat}
    (hs : c.curState = state.txList) (hi : i = c.stateChangeNum + 1) :
    step c i "Total charges, credits and returns" =
      some { c with curState := state.end_, stateChangeNum := i } := by
  simp [step, hs, hi]

theorem step_pageBreak {c : Config} {i : Nat} {l : String}
    (hs : c.curState = state.txList) (hi : i = c.stateChangeNum + 1)
    (hl : pageBreakSentinel l = true) :
    step c i l = some { c with curState := state.pageBreak, stateChangeNum := i, tx := {} } := by
  simp [step, hs, hi, hl, pageBreak_ne_total hl]

theorem step_promoMarker {c : Config} {i : Nat} {r : transaction}
    (hs : c.curState = state.txList) (hi : i = c.stateChangeNum + 1)
    (hr : c.txs.getLast? = some r) :
    step c i "Promo Daily Cash" =
      some { c with curState := state.promo, stateChangeNum := i, tx := r } := by
  have hpb : pageBreakSentinel "Promo Daily Cash" = false := by decide
  simp [step, hs, hi, hr, hpb]

theorem step_cashAdjMarker {c : Config} {i : Nat}
    (hs : c.curState = state.txList) (hi : i = c.stateChangeNum + 1) :
    step c i "Daily Cash Adjustment" =
      some { c with curState := state.cashAdj, stateChangeNum := i } := by
  have hpb : pageBreakSentinel "Daily Cash Adjustment" = false := by decide
  simp [step, hs, hi, hpb]

theorem step_promoPct {c : Config} {i : Nat} {l : String}
    (hs : c.curState = state.promo) (hi : i = c.stateChangeNum + 1) :
    step c i l = some { c with tx := { c.tx with promoCashPct := l } } := by
  simp [step, hs, hi]

theorem step_promoAmt {c : Config} {i : Nat} {l : String}
    (hs : c.curState = state.promo) (hi : i = c.stateChangeNum + 2) :
    step c i l = some { c with tx := { c.tx with promoCashAmt := l } } := by
  simp [step, hs, hi]

theorem step_promoCommit {c : Config} {i : Nat} {l : String} {txs' : List transaction}
    (hs : c.curState = state.promo) (hi : i = c.stateChangeNum + 3)
    (hset : setLast c.txs c.tx = some txs') :
    step c i l =
      some { txs := txs', curState := state.txList, stateChangeNum := i, tx := {} } := by
  simp [step, hs, hi, hset]

theorem step_banner {c : Config} {i : Nat}
    (hs : c.curState = state.preamble ∨ c.curState = state.pageBreak) :
    step c i "Transactions" =
      some { c with curState := state.txHeader, stateChangeNum := i } := by
  simp [step, hs]

theorem step_headerSkip {c : Config} {i : Nat} {l : String}
    (hs : c.curState = state.txHeader) (hi : i ≠ c.stateChangeNum + 4) :
    step c i l = some c := by
  simp [step, fillDraft, appendDraft, hs, hi]

theorem step_headerExit {c : Config} {i : Nat} {l : String}
    (hs : c.curState = state.txHeader) (hi : i = c.stateChangeNum + 4) :
    step c i l = some { c with curState := state.txList, stateChangeNum := i } := by
  simp [step, hs, hi]

theorem step_end {c : Config} {i : Nat} {l : String} (hs : c.curState = state.end_) :
    step c i l = some c := by
  simp [step, fillDraft, appendDraft, hs]

theorem step_preamble {c : Config} {i : Nat} {l : String}
    (hs : c.curState = state.preamble) (hl : l ≠ "Transactions") :
    step c i l = some c := by
  simp [step, fillDraft, appendDraft, hs, hl]

theorem setLast_concat (O : List transaction) (r t : transaction) :
    setLast (O ++ [r]) t = some (O ++ [t]) := by
  simp [setLast]

/-! ## The draft outside of the amendment states -/

theorem clean_init : Clean init := by
  simp [Clean, init]

theorem fillDraft_frame (c : Config) (i : Nat) (l : String) :
    (fillDraft c i l).1.curState = c.curState ∧ (fillDraft c i l).1.txs = c.txs ∧
    (fillDraft c i l).1.tx.promoCashAmt = c.tx.promoCashAmt ∧
    (fillDraft c i l).1.tx.promoCashPct = c.tx.promoCashPct ∧
    (fillDraft c i l).1.tx.cashAdjustmentAmt = c.tx.cashAdjustmentAmt ∧
    (fillDraft c i l).1.tx.cashAdjustmentPct = c.tx.cashAdjustmentPct := by
  unfold fillDraft
  by_cases h1 : c.curState = state.txList ∧ i ≤ c.stateChangeNum + 5
  · rw [if_pos h1]
    split_ifs <;> simp [h1.1]
  · rw [if_neg h1]
    simp

theorem fillDraft_clean {c : Config} (i : Nat) (l : String) (hc : Clean c) :
    Clean (fillDraft c i l).1 := by
  obtain ⟨h1, _, h3, h4, h5, h6⟩ := fillDraft_frame c i l
  unfold Clean at *
  rw [h1, h3, h4, h5, h6]
  exact hc

theorem appendDraft_clean {c : Config} (i : Nat) (hc : Clean c) :
    Clean (appendDraft c i) := by
  unfold appendDraft
  split_ifs with h1
  · simp [Clean]
  · exact hc

theorem step_clean {c c' : Config} {i : Nat} {l : String} (hc : Clean c)
    (h : step c i l = some c') : Clean c' := by
  unfold step at h
  split_ifs at h with h1 h2 h3 h4 h5 h6 h7 h8 h9 h10 h11
  · cases h
    rcases h1.1 with hp | hp <;> simpa [Clean, hp] using hc
  · cases h
    simpa [Clean, h2.1] using hc
  · cases h
    simp [Clean, h3.1]
  · cases h
    simp [Clean, h3.1]
  · split at h
    · cases h
    · cases h
      simp [Clean]
  · cases h
    have := hc.1 (by simp [h6.1])
    simpa [Clean, h6.1] using this
  · split at h
    · cases h
    · cases h
      simp [Clean]
  · cases h
    simpa [Clean, h8.1] using hc
  · cases h
    simp [Clean]
  · split at h
    · cases h
    · cases h
      simp [Clean]
  · cases h
    have := hc.1 (by simp [h11.1])
    simpa [Clean, h11.1] using this
  · rcases hfd : fillDraft c i l with ⟨c1, b⟩
    have hcl := fillDraft_clean i l hc
    rw [hfd] at h hcl
    cases b
    · simp only [Option.some.injEq] at h
      subst h
      exact appendDraft_clean i hcl
    · simp only [Option.some.injEq] at h
      subst h
      exact hcl

theorem runFrom_clean {ls : List String} {i : Nat} {c c' : Config} (hc : Clean c)
    (h : runFrom i c ls = some c') : Clean c' := by
  induction ls generalizing i c with
  | nil =>
    simp only [runFrom, Option.some.injEq] at h
    subst h
    exact hc
  | cons l ls ih =>
    simp only [runFrom] at h
    cases hs : step c i l with
    | none => simp [hs] at h
    | some c1 =>
      rw [hs] at h
      exact ih (step_clean hc hs) h

/-! ## The states `end` and `preamble`, and moving the anchor -/

theorem runFrom_end {R : List String} {i : Nat} {c : Config}
    (hs : c.curState = state.end_) : runFrom i c R = some c := by
  induction R generalizing i with
  | nil => rfl
  | cons l ls ih => simp only [runFrom, step_end hs, ih]

theorem runFrom_preamble {pre : List String} {i : Nat} {c : Config}
    (hs : c.curState = state.preamble) (hpre : ∀ l ∈ pre, l ≠ "Transactions") :
    runFrom i c pre = some c := by
  induction pre generalizing i with
  | nil => rfl
  | cons l ls ih =>
    have hl : l ≠ "Transactions" := hpre l (by simp)
    simp only [runFrom, step_preamble hs hl]
    exact ih (fun x hx => hpre x (by simp [hx]))

theorem fillDraft_shift (n : Nat) (c : Config) (i : Nat) (l : String) :
    fillDraft (shift n c) (i + n) l =
      (shift n (fillDraft c i l).1, (fillDraft c i l).2) := by
  have e1 : ∀ k, (i + n = c.stateChangeNum + n + k) ↔ (i = c.stateChangeNum + k) :=
    fun k => by omega
  have e2 : ∀ k, (i + n ≤ c.stateChangeNum + n + k) ↔ (i ≤ c.stateChangeNum + k) :=
    fun k => by omega
  simp only [fillDraft, shift, e1, e2]
  split_ifs <;> rfl

theorem appendDraft_shift (n : Nat) (c : Config) (i : Nat) :
    appendDraft (shift n c) (i + n) = shift n (appendDraft c i) := by
  have e1 : ∀ k, (i + n = c.stateChangeNum + n + k) ↔ (i = c.stateChangeNum + k) :=
    fun k => by omega
  simp only [appendDraft, shift, e1]
  split_ifs <;> rfl

theorem step_shift (n : Nat) (c : Config) (i : Nat) (l : String) :
    step (shift n c) (i + n) l = (step c i l).map (shift n) := by
  have e1 : ∀ k, (i + n = c.stateChangeNum + n + k) ↔ (i = c.stateChangeNum + k) :=
    fun k => by omega
  have e2 : ∀ k, (i + n ≤ c.stateChangeNum + n + k) ↔ (i ≤ c.stateChangeNum + k) :=
    fun k => by omega
  have hf := fillDraft_shift n c i l
  unfold step
  rw [hf]
  simp only [shift, e1, e2]
  split_ifs
  all_goals first
    | rfl
    | (cases setLast c.txs c.tx <;> rfl)
    | (cases setLast c.txs { c.tx with cashAdjustmentAmt := l } <;> rfl)
    | (cases c.txs.getLast? <;> rfl)
    | skip
  rcases fillDraft c i l with ⟨c1, b⟩
  cases b
  · show some (appendDraft (shift n c1) (i + n)) = some (shift n (appendDraft c1 i))
    rw [appendDraft_shift]
  · rfl

theorem runFrom_shift (n : Nat) (ls : List String) (i : Nat) (c : Config) :
    runFrom (i + n) (shift n c) ls = (runFrom i c ls).map (shift n) := by
  induction ls generalizing i c with
  | nil => rfl
  | cons l ls ih =>
    simp only [runFrom, step_shift]
    cases step c i l with
    | none => rfl
    | some c1 =>
      have hi : i + n + 1 = i + 1 + n := by omega
      simp only [Option.map_some', hi]
      exact ih (i + 1) c1

theorem runFrom_preamble_anchor (ls : List String) (i k : Nat) (c : Config)
    (hs : c.curState = state.preamble) :
    (runFrom i { c with stateChangeNum := k } ls).map Config.txs =
      (runFrom i c ls).map Config.txs := by
  induction ls generalizing i with
  | nil => rfl
  | cons l ls ih =>
    by_cases hl : l = "Transactions"
    · subst hl
      simp only [runFrom]
      rw [step_banner (Or.inl hs), step_banner (Or.inl (by exact hs))]
    · simp only [runFrom]
      rw [step_preamble hs hl, step_preamble (by exact hs) hl]
      exact ih (i + 1)

/-! ## Claims -/

/-- C1 (the code fails): on the six lines `Transactions`, four header lines
and `Promo Daily Cash`, the read `tx = txs[len(txs)-1]` of line 140 happens
while `txs` is empty, so `parseTransactions` fails at run time instead of
returning. -/
theorem C1_promo_marker_on_empty_output_fails :
    parseTransactions ["Transactions", "H1", "H2", "H3", "H4", "Promo Daily Cash"] = none := by
  decide

/-- C2 (counterexample): on the 13 lines of the scenario the fourth line after
the banner, `Jan 1`, is consumed by the header, and `parseTransactions`
returns the empty sequence, not the two transactions of the claim. -/
theorem C2_scenario_counterexample :
    parseTransactions ["Transactions", "H1", "H2", "H3", "Jan 1", "Coffee Shop", "-5%",
      "$0.25", "$5.00", "Jan 2", "Grocery", "$20.00",
      "Total charges, credits and returns"] ≠
    some [{ date := "Jan 1", location := "Coffee Shop", transactionAmt := "$5.00",
            cashBackPct := "-5%", cashBackAmt := "$0.25" },
          { date := "Jan 2", location := "Grocery", transactionAmt := "$20.00" }] := by
  decide

/-- C2 (amended): with a fourth header line `H4` after the banner, the ten
lines up to `$5.00` return exactly the transaction of `Jan 1`, and on the
whole scenario of 14 lines that transaction is the first one returned. -/
theorem C2_scenario_four_header_lines :
    parseTransactions ["Transactions", "H1", "H2", "H3", "H4", "Jan 1", "Coffee Shop",
      "-5%", "$0.25", "$5.00"] =
      some [{ date := "Jan 1", location := "Coffee Shop", transactionAmt := "$5.00",
              cashBackPct := "-5%", cashBackAmt := "$0.25" }] ∧
    ∃ rest, parseTransactions ["Transactions", "H1", "H2", "H3", "H4", "Jan 1",
      "Coffee Shop", "-5%", "$0.25", "$5.00", "Jan 2", "Grocery", "$20.00",
      "Total charges, credits and returns"] =
      some ({ date := "Jan 1", location := "Coffee Shop", transactionAmt := "$5.00",
              cashBackPct := "-5%", cashBackAmt := "$0.25" } :: rest) := by
  refine ⟨by decide, [], by decide⟩

/-- C3: after a prefix `P` that leaves the machine at a fresh `txList` entry,
the five lines `d, loc, pct, cb, amt` (with `d` not a sentinel and `pct` a
percentage) append exactly one transaction with these five fields and empty
promo and adjustment fields. -/
theorem C3_five_line_transaction (P : List String) (d loc pct cb amt : String)
    (hP : FreshTxList P) (hd : NotSentinel d) (hpct : percentFormat pct = true) :
    ∃ out, parseTransactions P = some out ∧
      parseTransactions (P ++ [d, loc, pct, cb, amt]) =
        some (out ++ [{ date := d, location := loc, transactionAmt := amt,
                        cashBackPct := pct, cashBackAmt := cb }]) := by
  obtain ⟨c, hrun, hst, hanchor⟩ := hP
  have hcl := runFrom_clean clean_init hrun
  obtain ⟨hpa, hpp⟩ := hcl.1 (by simp [hst])
  obtain ⟨haa, hap⟩ := hcl.2 (by simp [hst]) (by simp [hst])
  refine ⟨c.txs, parseTransactions_of_run hrun, ?_⟩
  simp only [parseTransactions, run_after hrun, runFrom]
  rw [step_date hst hanchor.symm hd]
  simp only []
  rw [step_location (by exact hst) (by simp; omega)]
  simp only []
  rw [step_cashBackPct (by exact hst) (by simp; omega) hpct]
  simp only []
  rw [step_cashBackAmt (by exact hst) (by simp; omega)]
  simp only []
  rw [step_append (by exact hst) (by simp; omega)]
  simp [haa, hap, hpa, hpp]

/-- C3 (witness): the five lines of the `Jan 1` transaction after the banner
and four header lines. -/
theorem C3_five_line_transaction_witness :
    ∃ out, parseTransactions ["Transactions", "H1", "H2", "H3", "H4"] = some out ∧
      parseTransactions (["Transactions", "H1", "H2", "H3", "H4"] ++
          ["Jan 1", "Coffee Shop", "-5%", "$0.25", "$5.00"]) =
        some (out ++ [{ date := "Jan 1", location := "Coffee Shop",
                        transactionAmt := "$5.00", cashBackPct := "-5%",
                        cashBackAmt := "$0.25" }]) :=
  C3_five_line_transaction ["Transactions", "H1", "H2", "H3", "H4"]
    "Jan 1" "Coffee Shop" "-5%" "$0.25" "$5.00"
    ⟨_, rfl, rfl, rfl⟩ (by decide) (by decide)

/-- A row of three lines followed by the date of the next row leaves the
output as it was: the amount branch of offset 3 (lines 158-161) stores the
amount and resets the anchor, and nothing appends the draft. -/
theorem threeLineRow_keeps_output (P : List String) (d loc amt d2 : String)
    (hP : FreshTxList P) (hd : NotSentinel d) (hamt : percentFormat amt = false)
    (hd2 : NotSentinel d2) :
    parseTransactions (P ++ [d, loc, amt, d2]) = parseTransactions P := by
  obtain ⟨c, hrun, hst, hanchor⟩ := hP
  rw [parseTransactions_of_run hrun]
  simp only [parseTransactions, run_after hrun, runFrom]
  rw [step_date hst hanchor.symm hd]
  simp only []
  rw [step_location (by exact hst) (by simp; omega)]
  simp only []
  rw [step_amount3 (by exact hst) (by simp; omega) hamt]
  simp only []
  rw [step_date (by exact hst) (by simp) hd2]
  simp

/-- C4 (the code drops the row): after the banner and four header lines, the
three-line row `Jan 2, Grocery, $20.00` followed by the date `Jan 3` of the
next row appends nothing; the output stays empty although the claim promises
one transaction. -/
theorem C4_three_line_row_not_appended :
    FreshTxList ["Transactions", "H1", "H2", "H3", "H4"] ∧
    NotSentinel "Jan 2" ∧ NotSentinel "Jan 3" ∧ percentFormat "$20.00" = false ∧
    parseTransactions ["Transactions", "H1", "H2", "H3", "H4"] = some [] ∧
    parseTransactions (["Transactions", "H1", "H2", "H3", "H4"] ++
      ["Jan 2", "Grocery", "$20.00", "Jan 3"]) = some [] :=
  ⟨⟨_, rfl, rfl, rfl⟩, by decide, by decide, by decide, by decide, by decide⟩

/-- C5 (the code loses the record): a `Daily Cash Adjustment` block right
after an appended five-line transaction overwrites that transaction with the
draft, which is empty but for the two adjustment fields; date, location,
amount and cash back of the record are lost. -/
theorem C5_adjustment_overwrites_record :
    FreshTxList ["Transactions", "H1", "H2", "H3", "H4", "Jan 1", "Coffee Shop", "2%",
      "$0.10", "$5.00"] ∧
    parseTransactions ["Transactions", "H1", "H2", "H3", "H4", "Jan 1", "Coffee Shop",
      "2%", "$0.10", "$5.00"] =
      some [{ date := "Jan 1", location := "Coffee Shop", transactionAmt := "$5.00",
              cashBackPct := "2%", cashBackAmt := "$0.10" }] ∧
    parseTransactions (["Transactions", "H1", "H2", "H3", "H4", "Jan 1", "Coffee Shop",
      "2%", "$0.10", "$5.00"] ++ ["Daily Cash Adjustment", "-2%", "-$0.10"]) =
      some [{ cashAdjustmentPct := "-2%", cashAdjustmentAmt := "-$0.10" }] :=
  ⟨⟨_, rfl, rfl, rfl⟩, by decide, by decide⟩

/-- C6 (counterexample): right after the two lines of a `Promo Daily Cash`
block the appended record is not amended yet: the output still holds the
record without promo fields. -/
theorem C6_promo_counterexample :
    FreshTxList ["Transactions", "H1", "H2", "H3", "H4", "Jan 1", "Coffee Shop", "2%",
      "$0.10", "$5.00"] ∧
    parseTransactions ["Transactions", "H1", "H2", "H3", "H4", "Jan 1", "Coffee Shop",
      "2%", "$0.10", "$5.00"] =
      some ([] ++ [{ date := "Jan 1", location := "Coffee Shop", transactionAmt := "$5.00",
                     cashBackPct := "2%", cashBackAmt := "$0.10" }]) ∧
    parseTransactions (["Transactions", "H1", "H2", "H3", "H4", "Jan 1", "Coffee Shop",
      "2%", "$0.10", "$5.00"] ++ ["Promo Daily Cash", "3%", "$0.15"]) ≠
      some ([] ++ [{ date := "Jan 1", location := "Coffee Shop", transactionAmt := "$5.00",
                     cashBackPct := "2%", cashBackAmt := "$0.10",
                     promoCashPct := "3%", promoCashAmt := "$0.15" }]) :=
  ⟨⟨_, rfl, rfl, rfl⟩, by decide, by decide⟩

/-- C6 (amended): after a prefix `P` that leaves the machine at a fresh
`txList` entry with output `O ++ [r]`, the marker `Promo Daily Cash`, the two
lines `p`, `a` and one more line `x` of any content replace `r` by `r` with
`promoCashPct = p` and `promoCashAmt = a`; no record is created and the
length is unchanged. -/
theorem C6_promo_amendment (P : List String) (O : List transaction) (r : transaction)
    (p a x : String) (hP : FreshTxList P)
    (hout : parseTransactions P = some (O ++ [r])) :
    parseTransactions (P ++ ["Promo Daily Cash", p, a, x]) =
      some (O ++ [{ r with promoCashPct := p, promoCashAmt := a }]) := by
  obtain ⟨c, hrun, hst, hanchor⟩ := hP
  have htxs : c.txs = O ++ [r] := by
    rw [parseTransactions_of_run hrun] at hout
    exact Option.some.inj hout
  have hlast : c.txs.getLast? = some r := by simp [htxs]
  simp only [parseTransactions, run_after hrun, runFrom]
  rw [step_promoMarker hst hanchor.symm hlast]
  simp only []
  rw [step_promoPct (by rfl) (by simp)]
  simp only []
  rw [step_promoAmt (by rfl) (by simp)]
  simp only []
  rw [step_promoCommit (by rfl) (by simp) (by simp only [htxs]; exact setLast_concat O r _)]
  simp

/-- C6 (witness): a promo block and one more line after the `Jan 1`
transaction. -/
theorem C6_promo_amendment_witness :
    parseTransactions (["Transactions", "H1", "H2", "H3", "H4", "Jan 1", "Coffee Shop",
      "2%", "$0.10", "$5.00"] ++ ["Promo Daily Cash", "3%", "$0.15", "Jan 2"]) =
      some ([] ++ [{ date := "Jan 1", location := "Coffee Shop", transactionAmt := "$5.00",
                     cashBackPct := "2%", cashBackAmt := "$0.10",
                     promoCashPct := "3%", promoCashAmt := "$0.15" }]) :=
  C6_promo_amendment
    ["Transactions", "H1", "H2", "H3", "H4", "Jan 1", "Coffee Shop", "2%", "$0.10", "$5.00"]
    [] { date := "Jan 1", location := "Coffee Shop", transactionAmt := "$5.00",
         cashBackPct := "2%", cashBackAmt := "$0.10" }
    "3%" "$0.15" "Jan 2" ⟨_, rfl, rfl, rfl⟩ (by decide)

/-- C7 (the code emits an empty record): all thirteen lines are non-empty and
the parse does not fail, yet the returned transaction has an empty date,
location and amount: the `Daily Cash Adjustment` block overwrote the record
with the cleared draft. -/
theorem C7_record_with_empty_mandatory_fields :
    (∀ l ∈ ["Transactions", "Date", "Description", "Daily Cash", "Amount", "Feb 3",
        "Book Store", "3%", "$0.60", "$20.00", "Daily Cash Adjustment", "1%", "$0.20"],
      l ≠ "") ∧
    ∃ t, parseTransactions ["Transactions", "Date", "Description", "Daily Cash", "Amount",
        "Feb 3", "Book Store", "3%", "$0.60", "$20.00", "Daily Cash Adjustment", "1%",
        "$0.20"] = some [t] ∧
      t.date = "" ∧ t.location = "" ∧ t.transactionAmt = "" :=
  ⟨by decide, { cashAdjustmentPct := "1%", cashAdjustmentAmt := "$0.20" },
    by decide, rfl, rfl, rfl⟩

/-- C8 (counterexample): with three header lines after the reprinted banner,
the date line `Jan 1` is consumed as the fourth header line and no
transaction is appended. -/
theorem C8_three_header_lines_counterexample :
    FreshTxList ["Transactions", "H1", "H2", "H3", "H4"] ∧
    pageBreakSentinel "Page 1 /2" = true ∧ NotSentinel "Jan 1" ∧
    percentFormat "2%" = true ∧
    parseTransactions ["Transactions", "H1", "H2", "H3", "H4"] = some [] ∧
    parseTransactions (["Transactions", "H1", "H2", "H3", "H4"] ++
      ["Page 1 /2", "Transactions", "H1", "H2", "H3", "Jan 1", "Coffee Shop", "2%",
       "$0.10", "$5.00"]) ≠
      some ([] ++ [{ date := "Jan 1", location := "Coffee Shop", transactionAmt := "$5.00",
                     cashBackPct := "2%", cashBackAmt := "$0.10" }]) :=
  ⟨⟨_, rfl, rfl, rfl⟩, by decide, by decide, by decide, by decide, by decide⟩

/-- C8 (amended): after a prefix `P` that leaves the machine at a fresh
`txList` entry, a page-break line `g`, the banner `Transactions`, four header
lines `h1 .. h4` and a five-line transaction `d, loc, pct, cb, amt` (with `d`
not a sentinel and `pct` a percentage) append exactly that transaction: the
page break, the banner and the four header lines leave no trace. -/
theorem C8_pageBreak_resume (P : List String) (g h1 h2 h3 h4 d loc pct cb amt : String)
    (hP : FreshTxList P) (hg : pageBreakSentinel g = true) (hd : NotSentinel d)
    (hpct : percentFormat pct = true) :
    ∃ out, parseTransactions P = some out ∧
      parseTransactions
          (P ++ [g, "Transactions", h1, h2, h3, h4, d, loc, pct, cb, amt]) =
        some (out ++ [{ date := d, location := loc, transactionAmt := amt,
                        cashBackPct := pct, cashBackAmt := cb }]) := by
  obtain ⟨c, hrun, hst, hanchor⟩ := hP
  refine ⟨c.txs, parseTransactions_of_run hrun, ?_⟩
  simp only [parseTransactions, run_after hrun, runFrom]
  rw [step_pageBreak hst hanchor.symm hg]
  simp only []
  rw [step_banner (Or.inr (by rfl))]
  simp only []
  rw [step_headerSkip (by rfl) (by simp)]
  simp only []
  rw [step_headerSkip (by rfl) (by simp)]
  simp only []
  rw [step_headerSkip (by rfl) (by simp)]
  simp only []
  rw [step_headerExit (by rfl) (by simp)]
  simp only []
  rw [step_date (by rfl) (by simp) hd]
  simp only []
  rw [step_location (by rfl) (by simp)]
  simp only []
  rw [step_cashBackPct (by rfl) (by simp) hpct]
  simp only []
  rw [step_cashBackAmt (by rfl) (by simp)]
  simp only []
  rw [step_append (by rfl) (by simp)]
  rfl

/-- C8 (witness): a page break, the banner and four header lines between the
header of the first page and the `Jan 1` transaction. -/
theorem C8_pageBreak_resume_witness :
    ∃ out, parseTransactions ["Transactions", "H1", "H2", "H3", "H4"] = some out ∧
      parseTransactions (["Transactions", "H1", "H2", "H3", "H4"] ++
          ["Page 1 /2", "Transactions", "H1", "H2", "H3", "H4", "Jan 1", "Coffee Shop",
           "2%", "$0.10", "$5.00"]) =
        some (out ++ [{ date := "Jan 1", location := "Coffee Shop",
                        transactionAmt := "$5.00", cashBackPct := "2%",
                        cashBackAmt := "$0.10" }]) :=
  C8_pageBreak_resume ["Transactions", "H1", "H2", "H3", "H4"] "Page 1 /2"
    "H1" "H2" "H3" "H4" "Jan 1" "Coffee Shop" "2%" "$0.10" "$5.00"
    ⟨_, rfl, rfl, rfl⟩ (by decide) (by decide) (by decide)

/-- C9: after a prefix `P` that leaves the machine at a fresh `txList` entry,
the terminal line `Total charges, credits and returns` followed by any lines
`R` is parsed without failure and returns the output of `P`. -/
theorem C9_end_absorbing (P R : List String) (hP : FreshTxList P) :
    ∃ out, parseTransactions P = some out ∧
      parseTransactions (P ++ ["Total charges, credits and returns"] ++ R) = some out := by
  obtain ⟨c, hrun, hst, hanchor⟩ := hP
  refine ⟨c.txs, parseTransactions_of_run hrun, ?_⟩
  rw [List.append_assoc]
  simp only [parseTransactions, run_after hrun, List.singleton_append, runFrom]
  rw [step_total hst hanchor.symm]
  simp only []
  rw [runFrom_end (by rfl)]
  rfl

/-- C9 (witness): a banner, a promo marker and an adjustment marker after the
terminal line change nothing. -/
theorem C9_end_absorbing_witness :
    ∃ out, parseTransactions ["Transactions", "H1", "H2", "H3", "H4", "Jan 1",
        "Coffee Shop", "2%", "$0.10", "$5.00"] = some out ∧
      parseTransactions (["Transactions", "H1", "H2", "H3", "H4", "Jan 1", "Coffee Shop",
        "2%", "$0.10", "$5.00"] ++ ["Total charges, credits and returns"] ++
        ["Transactions", "Promo Daily Cash", "Daily Cash Adjustment", "x", "y"]) = some out :=
  C9_end_absorbing
    ["Transactions", "H1", "H2", "H3", "H4", "Jan 1", "Coffee Shop", "2%", "$0.10", "$5.00"]
    ["Transactions", "Promo Daily Cash", "Daily Cash Adjustment", "x", "y"]
    ⟨_, rfl, rfl, rfl⟩

/-- C10: preamble lines `pre`, none of them equal to `Transactions`, in front
of any sequence `lines` do not change the result of `parseTransactions`: the
same output sequence, or a failure in both cases. -/
theorem C10_position_independence (pre lines : List String)
    (hpre : ∀ l ∈ pre, l ≠ "Transactions") :
    parseTransactions (pre ++ lines) = parseTransactions lines := by
  have hrun : runFrom 0 init pre = some init := runFrom_preamble rfl hpre
  have h1 := runFrom_preamble_anchor lines pre.length pre.length init rfl
  have h2 := runFrom_shift pre.length lines 0 init
  rw [Nat.zero_add] at h2
  have h3 : shift pre.length init = { init with stateChangeNum := pre.length } := by
    simp [shift, init]
  simp only [parseTransactions, run_after hrun]
  rw [← h1, ← h3, h2]
  cases runFrom 0 init lines <;> rfl

/-- C10 (witness): two preamble lines in front of a statement with one
transaction. -/
theorem C10_position_independence_witness :
    parseTransactions (["Apple Card", "Statement"] ++
        ["Transactions", "H1", "H2", "H3", "H4", "Jan 1", "Coffee Shop", "2%", "$0.10",
         "$5.00"]) =
      parseTransactions ["Transactions", "H1", "H2", "H3", "H4", "Jan 1", "Coffee Shop",
        "2%", "$0.10", "$5.00"] :=
  C10_position_independence ["Apple Card", "Statement"]
    ["Transactions", "H1", "H2", "H3", "H4", "Jan 1", "Coffee Shop", "2%", "$0.10", "$5.00"]
    (by decide)

/-! ## The rows of `writeCsv` -/

theorem writeRecords_of_ok (wr : List String → Bool) (hw : ∀ row, wr row = true)
    (txs : List transaction) : writeRecords wr txs = txs.map transaction.record := by
  induction txs with
  | nil => rfl
  | cons t ts ih => simp [writeRecords, hw, ih]

/-- C11: the rows `writeCsv` hands to the CSV writer are the header row
followed by `record t` for each transaction `t` in order: `1 + len(txs)` rows
of nine fields each, with the nine column names of the header and the nine
fields of a record in the stated order. -/
theorem C11_writeCsv_rows (txs : List transaction) :
    writeCsvRows txs = transaction.header :: txs.map transaction.record ∧
    (writeCsvRows txs).length = 1 + txs.length ∧
    (∀ row ∈ writeCsvRows txs, row.length = 9) ∧
    transaction.header =
      ["date", "location", "amount", "cash_back_pct", "cash_back_amt", "promo_cash_amt",
       "promo_cash_pct", "cash_adj_amt", "cash_adj_pct"] ∧
    ∀ t : transaction, t.record =
      [t.date, t.location, t.transactionAmt, t.cashBackPct, t.cashBackAmt, t.promoCashAmt,
       t.promoCashPct, t.cashAdjustmentAmt, t.cashAdjustmentPct] := by
  have h : writeCsvRows txs = transaction.header :: txs.map transaction.record := by
    simp [writeCsvRows, writeRecords_of_ok csvWriteOk (fun _ => rfl)]
  refine ⟨h, ?_, ?_, rfl, fun _ => rfl⟩
  · simp [h, Nat.add_comm]
  · intro row hrow
    rw [h] at hrow
    rcases List.mem_cons.mp hrow with hrow | hrow
    · subst hrow
      rfl
    · obtain ⟨t, _, ht⟩ := List.mem_map.mp hrow
      subst ht
      rfl

/-! ## Page-break detour, safety without markers, and the amendment blocks -/

theorem step_pageBreakSkip {c : Config} {i : Nat} {l : String}
    (hs : c.curState = state.pageBreak) (hl : l ≠ "Transactions") :
    step c i l = some c := by
  simp [step, fillDraft, appendDraft, hs, hl]

theorem runFrom_pageBreakSkip {J : List String} {i : Nat} {c : Config}
    (hs : c.curState = state.pageBreak) (hJ : ∀ l ∈ J, l ≠ "Transactions") :
    runFrom i c J = some c := by
  induction J generalizing i with
  | nil => rfl
  | cons l ls ih =>
    have hl : l ≠ "Transactions" := hJ l (by simp)
    simp only [runFrom, step_pageBreakSkip hs hl]
    exact ih (fun x hx => hJ x (by simp [hx]))

/-- C13: after a prefix `P` that leaves the machine at a fresh `txList`
entry, a page-break line `g`, any lines `J` none of which is `Transactions`,
the banner and four lines `h1 .. h4` of any content bring the machine back to
a fresh `txList` entry: state `txList`, anchor at the index of `h4`, an empty
draft, and the output of `P` unchanged. -/
theorem C13_pageBreak_detour (P J : List String) (g h1 h2 h3 h4 : String)
    (hP : FreshTxList P) (hg : pageBreakSentinel g = true)
    (hJ : ∀ l ∈ J, l ≠ "Transactions") :
    ∃ c, runFrom 0 init (P ++ [g] ++ J ++ ["Transactions", h1, h2, h3, h4]) = some c ∧
      c.curState = state.txList ∧
      c.stateChangeNum + 1 = (P ++ [g] ++ J ++ ["Transactions", h1, h2, h3, h4]).length ∧
      c.tx = {} ∧ parseTransactions P = some c.txs := by
  obtain ⟨c, hrun, hst, hanchor⟩ := hP
  have h1run : runFrom 0 init (P ++ [g] ++ J) =
      some { c with curState := state.pageBreak, stateChangeNum := P.length, tx := {} } := by
    rw [List.append_assoc, run_after hrun, List.singleton_append]
    simp only [runFrom]
    rw [step_pageBreak hst hanchor.symm hg]
    exact runFrom_pageBreakSkip (by rfl) hJ
  refine ⟨{ c with curState := state.txList,
                   stateChangeNum := (P ++ [g] ++ J).length + 4, tx := {} }, ?_, rfl, ?_, rfl,
    (parseTransactions_of_run hrun : parseTransactions P = some c.txs)⟩
  · rw [run_after h1run]
    simp only [runFrom]
    rw [step_banner (Or.inr (by rfl))]
    simp only []
    rw [step_headerSkip (by rfl) (by simp)]
    simp only []
    rw [step_headerSkip (by rfl) (by simp)]
    simp only []
    rw [step_headerSkip (by rfl) (by simp)]
    simp only []
    rw [step_headerExit (by rfl) (by simp)]
  · simp only [List.length_append, List.length_cons, List.length_nil]

/-- C13 (witness): a page break, two footer lines, the banner and four header
lines after the header of the first page. -/
theorem C13_pageBreak_detour_witness :
    ∃ c, runFrom 0 init (["Transactions", "H1", "H2", "H3", "H4"] ++ ["Page 1 /2"] ++
        ["Apple Card", "Statement"] ++ ["Transactions", "A", "B", "C", "D"]) = some c ∧
      c.curState = state.txList ∧
      c.stateChangeNum + 1 = (["Transactions", "H1", "H2", "H3", "H4"] ++ ["Page 1 /2"] ++
        ["Apple Card", "Statement"] ++ ["Transactions", "A", "B", "C", "D"]).length ∧
      c.tx = {} ∧ parseTransactions ["Transactions", "H1", "H2", "H3", "H4"] = some c.txs :=
  C13_pageBreak_detour ["Transactions", "H1", "H2", "H3", "H4"] ["Apple Card", "Statement"]
    "Page 1 /2" "A" "B" "C" "D" ⟨_, rfl, rfl, rfl⟩ (by decide) (by decide)

theorem step_noMarker {c : Config} {i : Nat} {l : String}
    (h1 : c.curState ≠ state.promo) (h2 : c.curState ≠ state.cashAdj)
    (hp : l ≠ "Promo Daily Cash") (hd : l ≠ "Daily Cash Adjustment") :
    ∃ c1, step c i l = some c1 ∧ c1.curState ≠ state.promo ∧
      c1.curState ≠ state.cashAdj := by
  unfold step
  split_ifs with g1 g2 g3 g4 g5 g6 g7 g8 g9 g10 g11
  · exact ⟨_, rfl, by simp, by simp⟩
  · exact ⟨_, rfl, by simp, by simp⟩
  · exact absurd g3.1 h1
  · exact absurd g3.1 h1
  · exact absurd g3.1 h1
  · exact absurd g6.1 h2
  · exact absurd g6.1 h2
  · exact ⟨_, rfl, by simp, by simp⟩
  · exact ⟨_, rfl, by simp, by simp⟩
  · exact absurd g10.2.2 hp
  · exact absurd g11.2.2 hd
  · obtain ⟨e1, -⟩ := fillDraft_frame c i l
    rcases hfd : fillDraft c i l with ⟨c1, b⟩
    rw [hfd] at e1
    simp only at e1
    cases b
    · refine ⟨_, rfl, ?_, ?_⟩
      · unfold appendDraft
        split_ifs <;> simp [e1, h1]
      · unfold appendDraft
        split_ifs <;> simp [e1, h2]
    · exact ⟨_, rfl, by rw [e1]; exact h1, by rw [e1]; exact h2⟩

theorem runFrom_noMarker {ls : List String} {i : Nat} {c : Config}
    (h1 : c.curState ≠ state.promo) (h2 : c.curState ≠ state.cashAdj)
    (hl : ∀ l ∈ ls, l ≠ "Promo Daily Cash" ∧ l ≠ "Daily Cash Adjustment") :
    ∃ c1, runFrom i c ls = some c1 := by
  induction ls generalizing i c with
  | nil => exact ⟨c, rfl⟩
  | cons l ls ih =>
    obtain ⟨c1, hs, g1, g2⟩ := step_noMarker (i := i) h1 h2 (hl l (by simp)).1 (hl l (by simp)).2
    simp only [runFrom, hs]
    exact ih g1 g2 (fun x hx => hl x (by simp [hx]))

/-- C15: on an input with no line `Promo Daily Cash` and no line
`Daily Cash Adjustment`, `parseTransactions` never accesses the last element
of an empty output: it returns an output sequence. -/
theorem C15_safe_without_markers (lines : List String)
    (hl : ∀ l ∈ lines, l ≠ "Promo Daily Cash" ∧ l ≠ "Daily Cash Adjustment") :
    ∃ out, parseTransactions lines = some out := by
  obtain ⟨c1, h⟩ := runFrom_noMarker (i := 0) (c := init) (by simp [init]) (by simp [init]) hl
  exact ⟨c1.txs, parseTransactions_of_run h⟩

/-- C15 (witness): a statement of one transaction without marker lines. -/
theorem C15_safe_without_markers_witness :
    ∃ out, parseTransactions ["Transactions", "H1", "H2", "H3", "H4", "Jan 1",
      "Coffee Shop", "2%", "$0.10", "$5.00", "Total charges, credits and returns"] =
      some out :=
  C15_safe_without_markers _ (by decide)

theorem step_cashAdjPct {c : Config} {i : Nat} {l : String}
    (hs : c.curState = state.cashAdj) (hi : i = c.stateChangeNum + 1) :
    step c i l = some { c with tx := { c.tx with cashAdjustmentPct := l } } := by
  simp [step, hs, hi]

theorem step_cashAdjCommit {c : Config} {i : Nat} {l : String} {txs' : List transaction}
    (hs : c.curState = state.cashAdj) (hi : i = c.stateChangeNum + 2)
    (hset : setLast c.txs { c.tx with cashAdjustmentAmt := l } = some txs') :
    step c i l =
      some { txs := txs', curState := state.txList, stateChangeNum := i, tx := {} } := by
  simp [step, hs, hi, hset]

/-- C16: after a prefix `P` that leaves the machine at a fresh `txList` entry
with draft `c.tx` and output `O ++ [r]`, a three-line row `d, loc, amt` (with
`d` not a sentinel and `amt` not a percentage) followed by a
`Daily Cash Adjustment` block `p, a` replaces `r` by the draft with date `d`,
location `loc`, amount `amt` and adjustment fields `p`, `a`; the record `r`
is lost, the length is unchanged, and the promo fields of the draft are
empty. -/
theorem C16_adjustment_after_three_line_row (P : List String) (c : Config)
    (O : List transaction) (r : transaction) (d loc amt p a : String)
    (hrun : runFrom 0 init P = some c) (hst : c.curState = state.txList)
    (hanchor : c.stateChangeNum + 1 = P.length) (hout : c.txs = O ++ [r])
    (hd : NotSentinel d) (hamt : percentFormat amt = false) :
    parseTransactions P = some (O ++ [r]) ∧
    parseTransactions (P ++ [d, loc, amt, "Daily Cash Adjustment", p, a]) =
      some (O ++ [{ c.tx with date := d, location := loc, transactionAmt := amt,
                              cashAdjustmentPct := p, cashAdjustmentAmt := a }]) ∧
    c.tx.promoCashAmt = "" ∧ c.tx.promoCashPct = "" := by
  have hcl := runFrom_clean clean_init hrun
  refine ⟨by rw [parseTransactions_of_run hrun, hout], ?_, hcl.1 (by simp [hst])⟩
  simp only [parseTransactions, run_after hrun, runFrom]
  rw [step_date hst hanchor.symm hd]
  simp only []
  rw [step_location (by exact hst) (by simp; omega)]
  simp only []
  rw [step_amount3 (by exact hst) (by simp; omega) hamt]
  simp only []
  rw [step_cashAdjMarker (by exact hst) (by simp)]
  simp only []
  rw [step_cashAdjPct (by rfl) (by simp)]
  simp only []
  rw [step_cashAdjCommit (by rfl) (by simp) (by simp only [hout]; exact setLast_concat O r _)]
  rfl

/-- C16 (witness): the three-line row of `Jan 2` and an adjustment block
after the appended transaction of `Jan 1`, which is replaced. -/
theorem C16_adjustment_after_three_line_row_witness :
    parseTransactions ["Transactions", "H1", "H2", "H3", "H4", "Jan 1", "Coffee Shop",
      "2%", "$0.10", "$5.00"] =
      some ([] ++ [{ date := "Jan 1", location := "Coffee Shop", transactionAmt := "$5.00",
                     cashBackPct := "2%", cashBackAmt := "$0.10" }]) ∧
    parseTransactions (["Transactions", "H1", "H2", "H3", "H4", "Jan 1", "Coffee Shop",
      "2%", "$0.10", "$5.00"] ++
      ["Jan 2", "Refund", "-$5.00", "Daily Cash Adjustment", "-2%", "-$0.10"]) =
      some ([] ++ [{ ({} : transaction) with
                     date := "Jan 2", location := "Refund", transactionAmt := "-$5.00",
                     cashAdjustmentPct := "-2%", cashAdjustmentAmt := "-$0.10" }]) ∧
    ({} : transaction).promoCashAmt = "" ∧ ({} : transaction).promoCashPct = "" :=
  C16_adjustment_after_three_line_row
    ["Transactions", "H1", "H2", "H3", "H4", "Jan 1", "Coffee Shop", "2%", "$0.10", "$5.00"]
    { txs := [{ date := "Jan 1", location := "Coffee Shop", transactionAmt := "$5.00",
                cashBackPct := "2%", cashBackAmt := "$0.10" }],
      curState := state.txList, stateChangeNum := 9, tx := {} }
    [] { date := "Jan 1", location := "Coffee Shop", transactionAmt := "$5.00",
         cashBackPct := "2%", cashBackAmt := "$0.10" }
    "Jan 2" "Refund" "-$5.00" "-2%" "-$0.10" (by decide) rfl rfl rfl (by decide) (by decide)

/-- C17: after a prefix `P` that leaves the machine at a fresh `txList` entry
with output `O ++ [r]`, the marker `Promo Daily Cash` and the two lines `p`,
`a` leave the output `O ++ [r]` unamended; one more line `x`, whatever it is,
commits the amendment: the output is `O` followed by `r` with promo fields
`p`, `a`, and the machine is back at a fresh `txList` entry on `x` with an
empty draft, so `x` is stored nowhere and triggers no other transition. -/
theorem C17_promo_commit_at_offset_three (P : List String) (O : List transaction)
    (r : transaction) (p a x : String) (hP : FreshTxList P)
    (hout : parseTransactions P = some (O ++ [r])) :
    parseTransactions (P ++ ["Promo Daily Cash", p, a]) = some (O ++ [r]) ∧
    runFrom 0 init (P ++ ["Promo Daily Cash", p, a, x]) =
      some { txs := O ++ [{ r with promoCashPct := p, promoCashAmt := a }],
             curState := state.txList, stateChangeNum := P.length + 3, tx := {} } ∧
    parseTransactions (P ++ ["Promo Daily Cash", p, a, x]) =
      some (O ++ [{ r with promoCashPct := p, promoCashAmt := a }]) := by
  obtain ⟨c, hrun, hst, hanchor⟩ := hP
  have htxs : c.txs = O ++ [r] := by
    rw [parseTransactions_of_run hrun] at hout
    exact Option.some.inj hout
  have hlast : c.txs.getLast? = some r := by simp [htxs]
  have h4 : runFrom 0 init (P ++ ["Promo Daily Cash", p, a, x]) =
      some { txs := O ++ [{ r with promoCashPct := p, promoCashAmt := a }],
             curState := state.txList, stateChangeNum := P.length + 3, tx := {} } := by
    simp only [run_after hrun, runFrom]
    rw [step_promoMarker hst hanchor.symm hlast]
    simp only []
    rw [step_promoPct (by rfl) (by simp)]
    simp only []
    rw [step_promoAmt (by rfl) (by simp)]
    simp only []
    rw [step_promoCommit (by rfl) (by simp)
      (by simp only [htxs]; exact setLast_concat O r _)]
  refine ⟨?_, h4, by rw [parseTransactions, h4]; rfl⟩
  simp only [parseTransactions, run_after hrun, runFrom]
  rw [step_promoMarker hst hanchor.symm hlast]
  simp only []
  rw [step_promoPct (by rfl) (by simp)]
  simp only []
  rw [step_promoAmt (by rfl) (by simp)]
  simp [htxs]

/-- C17 (witness): a promo block after the `Jan 1` transaction, committed by
the terminal line, which does not end the parse. -/
theorem C17_promo_commit_at_offset_three_witness :
    parseTransactions (["Transactions", "H1", "H2", "H3", "H4", "Jan 1", "Coffee Shop",
      "2%", "$0.10", "$5.00"] ++ ["Promo Daily Cash", "3%", "$0.15"]) =
      some ([] ++ [{ date := "Jan 1", location := "Coffee Shop", transactionAmt := "$5.00",
                     cashBackPct := "2%", cashBackAmt := "$0.10" }]) ∧
    runFrom 0 init (["Transactions", "H1", "H2", "H3", "H4", "Jan 1", "Coffee Shop",
      "2%", "$0.10", "$5.00"] ++
      ["Promo Daily Cash", "3%", "$0.15", "Total charges, credits and returns"]) =
      some { txs := [] ++ [{ date := "Jan 1", location := "Coffee Shop",
                             transactionAmt := "$5.00", cashBackPct := "2%",
                             cashBackAmt := "$0.10", promoCashPct := "3%",
                             promoCashAmt := "$0.15" }],
             curState := state.txList,
             stateChangeNum := ["Transactions", "H1", "H2", "H3", "H4", "Jan 1",
               "Coffee Shop", "2%", "$0.10", "$5.00"].length + 3,
             tx := {} } ∧
    parseTransactions (["Transactions", "H1", "H2", "H3", "H4", "Jan 1", "Coffee Shop",
      "2%", "$0.10", "$5.00"] ++
      ["Promo Daily Cash", "3%", "$0.15", "Total charges, credits and returns"]) =
      some ([] ++ [{ date := "Jan 1", location := "Coffee Shop", transactionAmt := "$5.00",
                     cashBackPct := "2%", cashBackAmt := "$0.10", promoCashPct := "3%",
                     promoCashAmt := "$0.15" }]) :=
  C17_promo_commit_at_offset_three
    ["Transactions", "H1", "H2", "H3", "H4", "Jan 1", "Coffee Shop", "2%", "$0.10", "$5.00"]
    [] { date := "Jan 1", location := "Coffee Shop", transactionAmt := "$5.00",
         cashBackPct := "2%", cashBackAmt := "$0.10" }
    "3%" "$0.15" "Total charges, credits and returns" ⟨_, rfl, rfl, rfl⟩ (by decide)

/-! ## The percentage test of offset 3 -/

theorem isAsciiDigit_iff (ch : Char) : isAsciiDigit ch = true ↔ '0' ≤ ch ∧ ch ≤ '9' := by
  simp [isAsciiDigit]

theorem dropSign_cases (xs : List Char) : xs = dropSign xs ∨ xs = '-' :: dropSign xs := by
  unfold dropSign
  split
  · exact Or.inr rfl
  · exact Or.inl rfl

theorem dropSign_digit_cons (d : Char) (xs : List Char) (hd : '0' ≤ d) :
    dropSign (d :: xs) = d :: xs := by
  unfold dropSign
  split
  · rename_i r heq
    have hdm : d = '-' := (List.cons.inj heq).1
    subst hdm
    exact absurd hd (by decide)
  · rfl

theorem percentFormat_iff (l : String) : percentFormat l = true ↔ IsPercentText l := by
  constructor
  · intro h
    simp only [percentFormat, Bool.and_eq_true, beq_iff_eq] at h
    obtain ⟨hne, hdrop⟩ := h
    have hsplit := List.takeWhile_append_dropWhile isAsciiDigit (dropSign l.toList)
    rw [hdrop] at hsplit
    refine ⟨(dropSign l.toList).takeWhile isAsciiDigit, ?_, ?_, ?_⟩
    · intro hnil
      rw [hnil] at hne
      simp at hne
    · intro ch hch
      exact (isAsciiDigit_iff ch).mp (List.mem_takeWhile_imp hch)
    · rw [hsplit]
      exact dropSign_cases l.toList
  · rintro ⟨ds, hne, hdig, hl⟩
    have hall : ∀ ch ∈ ds, isAsciiDigit ch = true :=
      fun ch hch => (isAsciiDigit_iff ch).mpr (hdig ch hch)
    have hpc : isAsciiDigit '%' = false := by decide
    have hds : dropSign l.toList = ds ++ ['%'] := by
      rcases hl with hl | hl
      · rw [hl]
        cases ds with
        | nil => exact absurd rfl hne
        | cons d ds1 => exact dropSign_digit_cons d _ (hdig d (by simp)).1
      · rw [hl]
        rfl
    have htake : (ds ++ ['%']).takeWhile isAsciiDigit = ds := by
      rw [List.takeWhile_append_of_pos hall]
      simp [hpc]
    have hdrop : (ds ++ ['%']).dropWhile isAsciiDigit = ['%'] := by
      rw [List.dropWhile_append_of_pos hall]
      simp [hpc]
    simp only [percentFormat, hds, htake, hdrop, Bool.and_eq_true, Bool.not_eq_true',
      List.isEmpty_eq_false, beq_self_eq_true, and_true]
    cases ds with
    | nil => exact absurd rfl hne
    | cons d ds1 => simp

/-- C14: in state `txList` at offset 3 from the anchor, the line `l` is
stored in `cashBackPct`, with state, anchor and output unchanged, if and only
if `l` is an optional single minus sign, one or more ASCII digits and a
percent sign; every other `l`, among them the empty string, `5.5%`, `+5%`,
`5 %` and `%`, is stored in `transactionAmt` and the anchor is reset to this
line. -/
theorem C14_offset_three_disambiguation (c : Config) (i : Nat) (l : String)
    (hs : c.curState = state.txList) (hi : i = c.stateChangeNum + 3) :
    (step c i l = some { c with tx := { c.tx with cashBackPct := l } } ↔ IsPercentText l) ∧
    (¬ IsPercentText l →
      step c i l = some { c with tx := { c.tx with transactionAmt := l },
                                 stateChangeNum := i }) ∧
    ∀ x ∈ ["", "5.5%", "+5%", "5 %", "%"],
      step c i x = some { c with tx := { c.tx with transactionAmt := x },
                                 stateChangeNum := i } := by
  have hneg : ∀ x, percentFormat x = false →
      step c i x = some { c with tx := { c.tx with transactionAmt := x },
                                 stateChangeNum := i } :=
    fun x hx => step_amount3 hs hi hx
  refine ⟨⟨?_, ?_⟩, ?_, ?_⟩
  · intro hstep
    by_contra hnot
    have hpf : percentFormat l = false := by
      cases hb : percentFormat l with
      | false => rfl
      | true => exact absurd ((percentFormat_iff l).mp hb) hnot
    rw [hneg l hpf] at hstep
    have hanchor := congrArg Config.stateChangeNum (Option.some.inj hstep)
    simp only at hanchor
    omega
  · intro hp
    exact step_cashBackPct hs hi ((percentFormat_iff l).mpr hp)
  · intro hnot
    apply hneg
    cases hb : percentFormat l with
    | false => rfl
    | true => exact absurd ((percentFormat_iff l).mp hb) hnot
  · have hex : ∀ x ∈ ["", "5.5%", "+5%", "5 %", "%"], percentFormat x = false := by decide
    intro x hx
    exact hneg x (hex x hx)

/-- C14 (witness): at offset 3 after the banner, four header lines, a date
and a location, `-5%` goes to `cashBackPct` and `5.5%` to `transactionAmt`. -/
theorem C14_offset_three_disambiguation_witness :
    (step { txs := [], curState := state.txList, stateChangeNum := 4,
            tx := { date := "Jan 1", location := "Coffee Shop" } } 7 "-5%" =
        some { txs := [], curState := state.txList, stateChangeNum := 4,
               tx := { date := "Jan 1", location := "Coffee Shop", cashBackPct := "-5%" } } ↔
      IsPercentText "-5%") ∧
    (¬ IsPercentText "-5%" →
      step { txs := [], curState := state.txList, stateChangeNum := 4,
             tx := { date := "Jan 1", location := "Coffee Shop" } } 7 "-5%" =
        some { txs := [], curState := state.txList, stateChangeNum := 7,
               tx := { date := "Jan 1", location := "Coffee Shop",
                       transactionAmt := "-5%" } }) ∧
    ∀ x ∈ ["", "5.5%", "+5%", "5 %", "%"],
      step { txs := [], curState := state.txList, stateChangeNum := 4,
             tx := { date := "Jan 1", location := "Coffee Shop" } } 7 x =
        some { txs := [], curState := state.txList, stateChangeNum := 7,
               tx := { date := "Jan 1", location := "Coffee Shop", transactionAmt := x } } :=
  C14_offset_three_disambiguation
    { txs := [], curState := state.txList, stateChangeNum := 4,
      tx := { date := "Jan 1", location := "Coffee Shop" } } 7 "-5%" rfl rfl

/-! ## How one iteration changes the output -/

theorem setLast_eq_some {txs txs' : List transaction} {t : transaction}
    (h : setLast txs t = some txs') : ∃ O r, txs = O ++ [r] ∧ txs' = O ++ [t] := by
  rcases List.eq_nil_or_concat txs with hnil | ⟨O, r, hO⟩
  · subst hnil
    simp [setLast] at h
  · rw [List.concat_eq_append] at hO
    subst hO
    rw [setLast_concat] at h
    exact ⟨O, r, rfl, (Option.some.inj h).symm⟩

theorem fillDraft_anchor (c : Config) (i : Nat) (l : String) :
    ((fillDraft c i l).2 = false ∧
      (fillDraft c i l).1.stateChangeNum = c.stateChangeNum) ∨
    ((fillDraft c i l).2 = true ∧ c.curState = state.txList ∧
      i = c.stateChangeNum + 3 ∧ (fillDraft c i l).1.stateChangeNum = i) := by
  unfold fillDraft
  by_cases h1 : c.curState = state.txList ∧ i ≤ c.stateChangeNum + 5
  · rw [if_pos h1]
    split_ifs <;> simp_all
  · rw [if_neg h1]
    simp

/-- The three ways an iteration changes the output: not at all, by appending
one record, or by replacing the last record. -/
theorem step_output {c c1 : Config} {i : Nat} {l : String} (h : step c i l = some c1) :
    c1.txs = c.txs ∨ (∃ t, c1.txs = c.txs ++ [t]) ∨
      ∃ O r t, c.txs = O ++ [r] ∧ c1.txs = O ++ [t] := by
  unfold step at h
  split_ifs at h with h1 h2 h3 h4 h5 h6 h7 h8 h9 h10 h11
  · cases h; exact Or.inl rfl
  · cases h; exact Or.inl rfl
  · cases h; exact Or.inl rfl
  · cases h; exact Or.inl rfl
  · split at h
    · cases h
    · rename_i txs' hset
      cases h
      obtain ⟨O, r, e1, e2⟩ := setLast_eq_some hset
      exact Or.inr (Or.inr ⟨O, r, _, e1, e2⟩)
  · cases h; exact Or.inl rfl
  · split at h
    · cases h
    · rename_i txs' hset
      cases h
      obtain ⟨O, r, e1, e2⟩ := setLast_eq_some hset
      exact Or.inr (Or.inr ⟨O, r, _, e1, e2⟩)
  · cases h; exact Or.inl rfl
  · cases h; exact Or.inl rfl
  · split at h
    · cases h
    · cases h; exact Or.inl rfl
  · cases h; exact Or.inl rfl
  · obtain ⟨-, e2, -⟩ := fillDraft_frame c i l
    rcases hfd : fillDraft c i l with ⟨c2, b⟩
    rw [hfd] at h e2
    simp only at e2
    cases b
    · simp only [Option.some.injEq] at h
      subst h
      unfold appendDraft
      split_ifs
      · exact Or.inr (Or.inl ⟨c2.tx, by simp [e2]⟩)
      · exact Or.inl e2
    · simp only [Option.some.injEq] at h
      subst h
      exact Or.inl e2

theorem extends_refl (a : List transaction) : Extends a a :=
  ⟨Nat.le_refl _, fun _ _ => rfl⟩

theorem extends_trans {a b c : List transaction} (h1 : Extends a b) (h2 : Extends b c) :
    Extends a c := by
  refine ⟨Nat.le_trans h1.1 h2.1, fun k hk => ?_⟩
  rw [h2.2 k (by have := h1.1; omega), h1.2 k hk]

theorem step_extends {c c1 : Config} {i : Nat} {l : String} (h : step c i l = some c1) :
    Extends c.txs c1.txs := by
  rcases step_output h with e | ⟨t, e⟩ | ⟨O, r, t, e1, e2⟩
  · rw [e]
    exact extends_refl _
  · rw [e]
    refine ⟨by simp, fun k hk => ?_⟩
    exact List.getElem?_append_left (by omega)
  · rw [e1, e2]
    refine ⟨by simp, fun k hk => ?_⟩
    have hk1 : k < O.length := by simpa using hk
    rw [List.getElem?_append_left hk1, List.getElem?_append_left hk1]

theorem runFrom_extends {ls : List String} {i : Nat} {c c1 : Config}
    (h : runFrom i c ls = some c1) : Extends c.txs c1.txs := by
  induction ls generalizing i c with
  | nil =>
    simp only [runFrom, Option.some.injEq] at h
    subst h
    exact extends_refl _
  | cons l ls ih =>
    simp only [runFrom] at h
    cases hs : step c i l with
    | none => simp [hs] at h
    | some c2 =>
      rw [hs] at h
      exact extends_trans (step_extends hs) (ih h)

/-- C18: when `parseTransactions` does not fail on `P ++ S`, it does not fail
on the prefix `P`, its output on `P` is not longer than its output on
`P ++ S`, and every record of the output on `P` other than the last one is
found unchanged at the same position in the output on `P ++ S`. -/
theorem C18_earlier_records_final (P S : List String) (out : List transaction)
    (h : parseTransactions (P ++ S) = some out) :
    ∃ outP, parseTransactions P = some outP ∧ outP.length ≤ out.length ∧
      ∀ k, k + 1 < outP.length → out[k]? = outP[k]? := by
  simp only [parseTransactions, runFrom_append, Nat.zero_add] at h
  cases hP : runFrom 0 init P with
  | none => simp [hP] at h
  | some c =>
    rw [hP] at h
    simp only [Option.some_bind] at h
    cases hS : runFrom P.length c S with
    | none => simp [hS] at h
    | some c1 =>
      rw [hS] at h
      simp only [Option.map_some', Option.some.injEq] at h
      subst h
      exact ⟨c.txs, parseTransactions_of_run hP, (runFrom_extends hS).1,
        (runFrom_extends hS).2⟩

/-- C18 (witness): the first of two records survives a promo block that
amends the second one. -/
theorem C18_earlier_records_final_witness :
    ∃ outP, parseTransactions ["Transactions", "H1", "H2", "H3", "H4", "Jan 1",
        "Coffee Shop", "2%", "$0.10", "$5.00", "Jan 2", "Grocery", "1%", "$0.20",
        "$20.00"] = some outP ∧
      outP.length ≤
        [({ date := "Jan 1", location := "Coffee Shop", transactionAmt := "$5.00",
            cashBackPct := "2%", cashBackAmt := "$0.10" } : transaction),
         { date := "Jan 2", location := "Grocery", transactionAmt := "$20.00",
           cashBackPct := "1%", cashBackAmt := "$0.20", promoCashPct := "3%",
           promoCashAmt := "$0.60" }].length ∧
      ∀ k, k + 1 < outP.length →
        [({ date := "Jan 1", location := "Coffee Shop", transactionAmt := "$5.00",
            cashBackPct := "2%", cashBackAmt := "$0.10" } : transaction),
         { date := "Jan 2", location := "Grocery", transactionAmt := "$20.00",
           cashBackPct := "1%", cashBackAmt := "$0.20", promoCashPct := "3%",
           promoCashAmt := "$0.60" }][k]? = outP[k]? :=
  C18_earlier_records_final
    ["Transactions", "H1", "H2", "H3", "H4", "Jan 1", "Coffee Shop", "2%", "$0.10",
     "$5.00", "Jan 2", "Grocery", "1%", "$0.20", "$20.00"]
    ["Promo Daily Cash", "3%", "$0.60", "Jan 3"] _ (by decide)

/-! ## The size of the output -/

theorem bound_init : Bound init 0 := by
  simp [Bound, init]

theorem step_bound {c c1 : Config} {i : Nat} {l : String} (hb : Bound c i)
    (h : step c i l = some c1) : Bound c1 (i + 1) := by
  obtain ⟨hG, hA, hH⟩ := hb
  unfold step at h
  split_ifs at h with h1 h2 h3 h4 h5 h6 h7 h8 h9 h10 h11
  · cases h
    refine ⟨?_, fun hx => ?_, fun _ => ?_⟩
    · simp only []; omega
    · cases hx
    · simp only []; omega
  · cases h
    have := hH h2.1
    refine ⟨?_, fun _ => ?_, fun hx => ?_⟩
    · simp only []; omega
    · simp only []; omega
    · cases hx
  · cases h
    refine ⟨?_, fun hx => ?_, fun hx => ?_⟩
    · simp only []; omega
    · simp only [h3.1] at hx; cases hx
    · simp only [h3.1] at hx; cases hx
  · cases h
    refine ⟨?_, fun hx => ?_, fun hx => ?_⟩
    · simp only []; omega
    · simp only [h3.1] at hx; cases hx
    · simp only [h3.1] at hx; cases hx
  · split at h
    · cases h
    · rename_i txs' hset
      cases h
      obtain ⟨O, r, e1, e2⟩ := setLast_eq_some hset
      rw [e1] at hG
      simp only [List.length_append, List.length_singleton] at hG
      refine ⟨?_, fun _ => ?_, fun hx => ?_⟩
      · simp only [e2, List.length_append, List.length_singleton]; omega
      · simp only [e2, List.length_append, List.length_singleton]; omega
      · cases hx
  · cases h
    refine ⟨?_, fun hx => ?_, fun hx => ?_⟩
    · simp only []; omega
    · simp only [h6.1] at hx; cases hx
    · simp only [h6.1] at hx; cases hx
  · split at h
    · cases h
    · rename_i txs' hset
      cases h
      obtain ⟨O, r, e1, e2⟩ := setLast_eq_some hset
      rw [e1] at hG
      simp only [List.length_append, List.length_singleton] at hG
      refine ⟨?_, fun _ => ?_, fun hx => ?_⟩
      · simp only [e2, List.length_append, List.length_singleton]; omega
      · simp only [e2, List.length_append, List.length_singleton]; omega
      · cases hx
  · cases h
    refine ⟨?_, fun hx => ?_, fun hx => ?_⟩
    · simp only []; omega
    · cases hx
    · cases hx
  · cases h
    refine ⟨?_, fun hx => ?_, fun hx => ?_⟩
    · simp only []; omega
    · cases hx
    · cases hx
  · split at h
    · cases h
    · cases h
      refine ⟨?_, fun hx => ?_, fun hx => ?_⟩
      · simp only []; omega
      · cases hx
      · cases hx
  · cases h
    refine ⟨?_, fun hx => ?_, fun hx => ?_⟩
    · simp only []; omega
    · cases hx
    · cases hx
  · obtain ⟨e1, e2, -⟩ := fillDraft_frame c i l
    have e3 := fillDraft_anchor c i l
    rcases hfd : fillDraft c i l with ⟨c2, b⟩
    rw [hfd] at h e1 e2 e3
    simp only at e1 e2 e3
    cases b
    · simp only [Option.some.injEq] at h
      subst h
      have e4 : c2.stateChangeNum = c.stateChangeNum := by
        rcases e3 with ⟨-, e⟩ | ⟨e, -⟩
        · exact e
        · cases e
      unfold appendDraft
      split_ifs with g
      · have := hA (e1 ▸ g.1)
        have gi := g.2
        refine ⟨?_, fun _ => ?_, fun hx => ?_⟩
        · simp only [e2, List.length_append, List.length_singleton]; omega
        · simp only [e2, List.length_append, List.length_singleton]; omega
        · simp only [g.1] at hx; cases hx
      · refine ⟨?_, fun hx => ?_, fun hx => ?_⟩
        · rw [e2]; omega
        · rw [e2, e4]; exact hA (e1 ▸ hx)
        · rw [e2, e4]; exact hH (e1 ▸ hx)
    · simp only [Option.some.injEq] at h
      subst h
      rcases e3 with ⟨e, -⟩ | ⟨-, g1, g2, g3⟩
      · cases e
      · have := hA g1
        refine ⟨?_, fun _ => ?_, fun hx => ?_⟩
        · rw [e2]; omega
        · rw [e2, g3]; omega
        · rw [e1, g1] at hx; cases hx

theorem runFrom_bound {ls : List String} {i : Nat} {c c1 : Config} (hb : Bound c i)
    (h : runFrom i c ls = some c1) : Bound c1 (i + ls.length) := by
  induction ls generalizing i c with
  | nil =>
    simp only [runFrom, Option.some.injEq] at h
    subst h
    exact hb
  | cons l ls ih =>
    simp only [runFrom] at h
    cases hs : step c i l with
    | none => simp [hs] at h
    | some c2 =>
      rw [hs] at h
      have := ih (step_bound hb hs) h
      have hlen : i + (l :: ls).length = i + 1 + ls.length := by
        simp only [List.length_cons]; omega
      rw [hlen]
      exact this

/-- C19: an input on which `parseTransactions` returns `n ≥ 1` transactions
has at least `5 * n + 5` lines; in particular an input of fewer than ten
lines yields an empty output. -/
theorem C19_output_size_bound (lines : List String) (out : List transaction)
    (h : parseTransactions lines = some out) :
    (1 ≤ out.length → 5 * out.length + 5 ≤ lines.length) ∧
    (lines.length < 10 → out = []) := by
  simp only [parseTransactions] at h
  cases hr : runFrom 0 init lines with
  | none => simp [hr] at h
  | some c =>
    rw [hr] at h
    simp only [Option.map_some', Option.some.injEq] at h
    subst h
    have hb := (runFrom_bound bound_init hr).1
    rw [Nat.zero_add] at hb
    refine ⟨fun h1 => ?_, fun h10 => ?_⟩
    · omega
    · apply List.eq_nil_of_length_eq_zero
      omega

/-- C19 (witness): an input of ten lines with one transaction. -/
theorem C19_output_size_bound_witness :
    (1 ≤ [({ date := "Jan 1", location := "Coffee Shop", transactionAmt := "$5.00",
             cashBackPct := "2%", cashBackAmt := "$0.10" } : transaction)].length →
      5 * [({ date := "Jan 1", location := "Coffee Shop", transactionAmt := "$5.00",
              cashBackPct := "2%", cashBackAmt := "$0.10" } : transaction)].length + 5 ≤
        ["Transactions", "H1", "H2", "H3", "H4", "Jan 1", "Coffee Shop", "2%", "$0.10",
         "$5.00"].length) ∧
    (["Transactions", "H1", "H2", "H3", "H4", "Jan 1", "Coffee Shop", "2%", "$0.10",
       "$5.00"].length < 10 →
      [({ date := "Jan 1", location := "Coffee Shop", transactionAmt := "$5.00",
          cashBackPct := "2%", cashBackAmt := "$0.10" } : transaction)] = []) :=
  C19_output_size_bound
    ["Transactions", "H1", "H2", "H3", "H4", "Jan 1", "Coffee Shop", "2%", "$0.10", "$5.00"]
    _ (by decide)

/-! ## The reference machine of the transition table -/

theorem step_txListIdle {c : Config} {i : Nat} {l : String}
    (hs : c.curState = state.txList) (h1 : i ≠ c.stateChangeNum + 1)
    (h2 : i ≠ c.stateChangeNum + 2) (h3 : i ≠ c.stateChangeNum + 3)
    (h4 : i ≠ c.stateChangeNum + 4) (h5 : i ≠ c.stateChangeNum + 5) :
    step c i l = some c := by
  simp [step, fillDraft, appendDraft, hs, h1, h2, h3, h4, h5]

theorem step_promoIdle {c : Config} {i : Nat} {l : String}
    (hs : c.curState = state.promo) (hi : ¬ i ≤ c.stateChangeNum + 3) :
    step c i l = some c := by
  simp [step, fillDraft, appendDraft, hs, hi]

theorem step_cashAdjIdle {c : Config} {i : Nat} {l : String}
    (hs : c.curState = state.cashAdj) (hi : ¬ i ≤ c.stateChangeNum + 2) :
    step c i l = some c := by
  simp [step, fillDraft, appendDraft, hs, hi]

theorem step_promoMarker_fail {c : Config} {i : Nat}
    (hs : c.curState = state.txList) (hi : i = c.stateChangeNum + 1)
    (hr : c.txs.getLast? = none) :
    step c i "Promo Daily Cash" = none := by
  have hpb : pageBreakSentinel "Promo Daily Cash" = false := by decide
  simp [step, hs, hi, hr, hpb]

theorem step_promoCommit_fail {c : Config} {i : Nat} {l : String}
    (hs : c.curState = state.promo) (hi : i = c.stateChangeNum + 3)
    (hset : setLast c.txs c.tx = none) :
    step c i l = none := by
  simp [step, hs, hi, hset]

theorem step_cashAdjCommit_fail {c : Config} {i : Nat} {l : String}
    (hs : c.curState = state.cashAdj) (hi : i = c.stateChangeNum + 2)
    (hset : setLast c.txs { c.tx with cashAdjustmentAmt := l } = none) :
    step c i l = none := by
  simp [step, hs, hi, hset]

/-- One line keeps the loop of `parseTransactions` and the reference machine
in agreement: both fail, or both move to configurations that agree. -/
theorem step_sim {c : Config} {i : Nat} {s : SpecConfig} (l : String) (h : Sim c i s) :
    (step c i l = none ∧ specStep s l = none) ∨
    ∃ c1 s1, step c i l = some c1 ∧ specStep s l = some s1 ∧ Sim c1 (i + 1) s1 := by
  obtain ⟨txs, cst, scn, tx⟩ := c
  obtain ⟨st, off, d, o⟩ := s
  obtain ⟨h1, h2, h3, h4, h5⟩ := h
  simp only at h1 h2 h3 h4 h5
  subst h1 h2 h3 h4
  cases cst with
  | preamble =>
    by_cases hl : l = "Transactions"
    · subst hl
      exact Or.inr ⟨_, ⟨state.txHeader, 1, tx, txs⟩,
        step_banner (Or.inl rfl),
        (by simp [specStep, transitionTable]),
        rfl, rfl, rfl, rfl, Or.inr (Nat.le_refl 1)⟩
    · exact Or.inr ⟨_, ⟨state.preamble, off + 1, tx, txs⟩,
        step_preamble rfl hl,
        (by simp [specStep, transitionTable, hl]),
        rfl, rfl, rfl, rfl, Or.inl rfl⟩
  | pageBreak =>
    have h5 : 1 ≤ off := by simpa using h5
    by_cases hl : l = "Transactions"
    · subst hl
      exact Or.inr ⟨_, ⟨state.txHeader, 1, tx, txs⟩,
        step_banner (Or.inr rfl),
        (by simp [specStep, transitionTable]),
        rfl, rfl, rfl, rfl, Or.inr (Nat.le_refl 1)⟩
    · exact Or.inr ⟨_, ⟨state.pageBreak, off + 1, tx, txs⟩,
        step_pageBreakSkip rfl hl,
        (by simp [specStep, transitionTable, hl]),
        rfl, rfl, rfl, rfl, Or.inr (by dsimp only; omega)⟩
  | end_ =>
    exact Or.inr ⟨_, ⟨state.end_, off + 1, tx, txs⟩,
        step_end rfl,
        (by simp [specStep, transitionTable]),
        rfl, rfl, rfl, rfl, Or.inr (by dsimp only; omega)⟩
  | txHeader =>
    by_cases e4 : off = 4
    · subst e4
      exact Or.inr ⟨_, ⟨state.txList, 1, tx, txs⟩,
        step_headerExit rfl rfl,
        (by simp [specStep, transitionTable]),
        rfl, rfl, rfl, rfl, Or.inr (Nat.le_refl 1)⟩
    · exact Or.inr ⟨_, ⟨state.txHeader, off + 1, tx, txs⟩,
        step_headerSkip rfl (by dsimp only; omega),
        (by simp [specStep, transitionTable, e4]),
        rfl, rfl, rfl, rfl, Or.inr (by dsimp only; omega)⟩
  | promo =>
    have h5 : 1 ≤ off := by simpa using h5
    by_cases e1 : off = 1
    · subst e1
      exact Or.inr ⟨_, ⟨state.promo, 2, ({ tx with promoCashPct := l } : transaction), txs⟩,
        step_promoPct rfl rfl,
        (by simp [specStep, transitionTable]),
        rfl, rfl, rfl, rfl, Or.inr (by dsimp only; omega)⟩
    by_cases e2 : off = 2
    · subst e2
      exact Or.inr ⟨_, ⟨state.promo, 3, ({ tx with promoCashAmt := l } : transaction), txs⟩,
        step_promoAmt rfl rfl,
        (by simp [specStep, transitionTable]),
        rfl, rfl, rfl, rfl, Or.inr (by dsimp only; omega)⟩
    by_cases e3 : off = 3
    · subst e3
      cases hset : setLast txs tx with
      | none =>
        exact Or.inl ⟨step_promoCommit_fail rfl rfl hset,
          by simp [specStep, transitionTable, hset]⟩
      | some o1 =>
        exact Or.inr ⟨_, ⟨state.txList, 1, ({} : transaction), o1⟩,
        step_promoCommit rfl rfl hset,
        (by simp [specStep, transitionTable, hset]),
        rfl, rfl, rfl, rfl, Or.inr (Nat.le_refl 1)⟩
    · exact Or.inr ⟨_, ⟨state.promo, off + 1, tx, txs⟩,
        step_promoIdle rfl (by dsimp only; omega),
        (by simp [specStep, transitionTable, e1, e2, e3]),
        rfl, rfl, rfl, rfl, Or.inr (by dsimp only; omega)⟩
  | cashAdj =>
    have h5 : 1 ≤ off := by simpa using h5
    by_cases e1 : off = 1
    · subst e1
      exact Or.inr ⟨_, ⟨state.cashAdj, 2, ({ tx with cashAdjustmentPct := l } : transaction), txs⟩,
        step_cashAdjPct rfl rfl,
        (by simp [specStep, transitionTable]),
        rfl, rfl, rfl, rfl, Or.inr (by dsimp only; omega)⟩
    by_cases e2 : off = 2
    · subst e2
      cases hset : setLast txs { tx with cashAdjustmentAmt := l } with
      | none =>
        exact Or.inl ⟨step_cashAdjCommit_fail rfl rfl hset,
          by simp [specStep, transitionTable, hset]⟩
      | some o1 =>
        exact Or.inr ⟨_, ⟨state.txList, 1, ({} : transaction), o1⟩,
        step_cashAdjCommit rfl rfl hset,
        (by simp [specStep, transitionTable, hset]),
        rfl, rfl, rfl, rfl, Or.inr (Nat.le_refl 1)⟩
    · exact Or.inr ⟨_, ⟨state.cashAdj, off + 1, tx, txs⟩,
        step_cashAdjIdle rfl (by dsimp only; omega),
        (by simp [specStep, transitionTable, e1, e2]),
        rfl, rfl, rfl, rfl, Or.inr (by dsimp only; omega)⟩
  | txList =>
    have h5 : 1 ≤ off := by simpa using h5
    by_cases e1 : off = 1
    · subst e1
      by_cases g1 : l = "Total charges, credits and returns"
      · subst g1
        exact Or.inr ⟨_, ⟨state.end_, 1, tx, txs⟩,
        step_total rfl rfl,
        (by simp [specStep, transitionTable]),
        rfl, rfl, rfl, rfl, Or.inr (Nat.le_refl 1)⟩
      by_cases g2 : pageBreakSentinel l = true
      · exact Or.inr ⟨_, ⟨state.pageBreak, 1, ({} : transaction), txs⟩,
        step_pageBreak rfl rfl g2,
        (by simp [specStep, transitionTable, g1, g2]),
        rfl, rfl, rfl, rfl, Or.inr (Nat.le_refl 1)⟩
      have g2f : pageBreakSentinel l = false := by
        cases hb : pageBreakSentinel l with
        | false => rfl
        | true => exact absurd hb g2
      by_cases g3 : l = "Promo Daily Cash"
      · subst g3
        cases hlast : txs.getLast? with
        | none =>
          exact Or.inl ⟨step_promoMarker_fail rfl rfl hlast,
            by simp [specStep, transitionTable, g2f, hlast]⟩
        | some r =>
          exact Or.inr ⟨_, ⟨state.promo, 1, r, txs⟩,
        step_promoMarker rfl rfl hlast,
        (by simp [specStep, transitionTable, g2f, hlast]),
        rfl, rfl, rfl, rfl, Or.inr (Nat.le_refl 1)⟩
      by_cases g4 : l = "Daily Cash Adjustment"
      · subst g4
        exact Or.inr ⟨_, ⟨state.cashAdj, 1, tx, txs⟩,
        step_cashAdjMarker rfl rfl,
        (by simp [specStep, transitionTable, g2f]),
        rfl, rfl, rfl, rfl, Or.inr (Nat.le_refl 1)⟩
      · exact Or.inr ⟨_, ⟨state.txList, 2, ({ tx with date := l } : transaction), txs⟩,
        step_date rfl rfl ⟨g1, g3, g4, g2f⟩,
        (by simp [specStep, transitionTable, g1, g2f, g3, g4]),
        rfl, rfl, rfl, rfl, Or.inr (by dsimp only; omega)⟩
    by_cases e2 : off = 2
    · subst e2
      exact Or.inr ⟨_, ⟨state.txList, 3, ({ tx with location := l } : transaction), txs⟩,
        step_location rfl rfl,
        (by simp [specStep, transitionTable]),
        rfl, rfl, rfl, rfl, Or.inr (by dsimp only; omega)⟩
    by_cases e3 : off = 3
    · subst e3
      cases hp : percentFormat l with
      | true =>
        exact Or.inr ⟨_, ⟨state.txList, 4, ({ tx with cashBackPct := l } : transaction), txs⟩,
        step_cashBackPct rfl rfl hp,
        (by simp [specStep, transitionTable, hp]),
        rfl, rfl, rfl, rfl, Or.inr (by dsimp only; omega)⟩
      | false =>
        exact Or.inr ⟨_, ⟨state.txList, 1, ({ tx with transactionAmt := l } : transaction), txs⟩,
        step_amount3 rfl rfl hp,
        (by simp [specStep, transitionTable, hp]),
        rfl, rfl, rfl, rfl, Or.inr (Nat.le_refl 1)⟩
    by_cases e4 : off = 4
    · subst e4
      exact Or.inr ⟨_, ⟨state.txList, 5, ({ tx with cashBackAmt := l } : transaction), txs⟩,
        step_cashBackAmt rfl rfl,
        (by simp [specStep, transitionTable]),
        rfl, rfl, rfl, rfl, Or.inr (by dsimp only; omega)⟩
    by_cases e5 : off = 5
    · subst e5
      exact Or.inr ⟨_, ⟨state.txList, 1, ({} : transaction), txs ++ [({ tx with transactionAmt := l } : transaction)]⟩,
        step_append rfl rfl,
        (by simp [specStep, transitionTable]),
        rfl, rfl, rfl, rfl, Or.inr (Nat.le_refl 1)⟩
    · exact Or.inr ⟨_, ⟨state.txList, off + 1, tx, txs⟩,
        step_txListIdle rfl (by dsimp only; omega) (by dsimp only; omega) (by dsimp only; omega) (by dsimp only; omega) (by dsimp only; omega),
        (by simp [specStep, transitionTable, e1, e2, e3, e4, e5]),
        rfl, rfl, rfl, rfl, Or.inr (by dsimp only; omega)⟩

theorem sim_init : Sim init 0 specInit :=
  ⟨rfl, rfl, rfl, rfl, Or.inl rfl⟩

theorem runFrom_sim {ls : List String} {c : Config} {i : Nat} {s : SpecConfig}
    (h : Sim c i s) :
    (runFrom i c ls).map Config.txs = (ls.foldlM specStep s).map SpecConfig.output := by
  induction ls generalizing c i s with
  | nil =>
    simp only [runFrom, List.foldlM_nil, Option.map_some', Option.pure_def]
    rw [h.2.2.1]
  | cons l ls ih =>
    simp only [runFrom, List.foldlM_cons, Option.bind_eq_bind]
    rcases step_sim l h with ⟨e1, e2⟩ | ⟨c1, s1, e1, e2, hs⟩
    · rw [e1, e2]
      rfl
    · rw [e1, e2]
      exact ih hs

/-- C12: on every input `parseTransactions`, written with absolute line
indices, and the reference machine of the transition table, run as a left
fold with the offset since state entry, return the same output sequence, or
both fail on a last-element access with empty output. -/
theorem C12_refines_transition_table (lines : List String) :
    parseTransactions lines = specParse lines :=
  runFrom_sim sim_init

end Applecard
